import Mathlib

/-!
Library catalog server: record codec, id allocator and record store.

A shallow embedding of `server.c`.  Files are byte sequences (`List Char`),
the file system is a record with one optional content per file name the
server touches, and every store operation is a function from the file
system before the call to the file system after it (plus the response
written to the client socket, if any).

The C library calls are modelled by their documented behaviour:
`fgets` (at most `BUFFER_SIZE - 1` bytes, stopping after a newline),
`sscanf` with the directives `%d`, `%s` and `%49s`, and `fprintf` with
`%d` and `%s`.  `int` is a 32-bit two's complement integer, `long` is
64 bits.

Uninitialised locals are arguments: the content a local has before its first
assignment is a parameter of the function that declares it (`g`, `junk`,
`new_book`, `spill_title`, ...).  A local declared in a loop body occupies one
stack slot, so a field that `sscanf` does not assign keeps the value of the
previous iteration.  Calls to `open` on an existing file, `flock`, `fdopen`
and `fopen` of a temporary file are taken to succeed.
-/

namespace Server

/-! ## Constants and data model -/

/-- The macro `BUFFER_SIZE`. -/
def BUFFER_SIZE : Nat := 1024

/-- The struct `Book`.  `title` and `author` hold the C string stored in the
50-byte arrays (the bytes before the terminating NUL). -/
structure Book where
  id : Int
  title : List Char
  author : List Char
  is_rented : Int
deriving DecidableEq, Repr

/-- The files the server opens, each absent (`none`) or holding its bytes. -/
structure FS where
  books : Option (List Char)
  books_temp : Option (List Char)
  books_temp_rent : Option (List Char)
  books_temp_return : Option (List Char)
  books_temp_modify : Option (List Char)
  members : Option (List Char)
  members_temp2 : Option (List Char)
deriving DecidableEq, Repr

/-! ## Machine integers -/

/-- Conversion of a mathematical integer to `int` (32-bit wrap-around). -/
def toInt32 (v : Int) : Int :=
  (v + 2147483648) % 4294967296 - 2147483648

/-- Saturation of a mathematical integer to `long` (64 bits): what `strtol`
returns for a digit string of that value. -/
def clampLong (v : Int) : Int :=
  if v > 9223372036854775807 then 9223372036854775807
  else if v < -9223372036854775808 then -9223372036854775808
  else v

/-- The predicate that an integer is representable as `int`. -/
def isInt32 (v : Int) : Prop :=
  -2147483648 ≤ v ∧ v ≤ 2147483647

instance (v : Int) : Decidable (isInt32 v) := by
  unfold isInt32; infer_instance

/-! ## Characters -/

/-- The C library `isspace` in the "C" locale: space, `\t`, `\n`, `\v`, `\f`, `\r`. -/
def isspace (c : Char) : Bool :=
  c.toNat == 32 || c.toNat == 9 || c.toNat == 10 || c.toNat == 11 || c.toNat == 12
    || c.toNat == 13

/-- The C library `isdigit`. -/
def isdigit (c : Char) : Bool :=
  48 ≤ c.toNat && c.toNat ≤ 57

/-- The newline byte. -/
def newline : Char := Char.ofNat 10

/-- The prefix of a buffer up to its first NUL byte: the C string it holds. -/
def cstr (buffer : List Char) : List Char :=
  buffer.takeWhile (fun c => c.toNat != 0)

/-! ## `fgets` -/

/-- The sequence of buffers that successive calls `fgets(buffer, cap + 1, file)`
return while reading a file with content `s` to its end; `k` is the number of
bytes already placed in the buffer being filled.  A buffer ends after a newline,
after `cap` bytes, or at end of file. -/
def fgetsAux (cap : Nat) : Nat → List Char → List (List Char)
  | _, [] => []
  | k, c :: s =>
    if c = newline ∨ cap ≤ k + 1 then [c] :: fgetsAux cap 0 s
    else
      match fgetsAux cap (k + 1) s with
      | [] => [[c]]
      | l :: ls => (c :: l) :: ls

/-- The buffers delivered by `while (fgets(buffer, BUFFER_SIZE, file))`. -/
def fgetsLines (s : List Char) : List (List Char) :=
  fgetsAux (BUFFER_SIZE - 1) 0 s

/-! ## `sscanf` directives -/

/-- Skipping of white space, as done before `%d` and `%s` and by a blank in
the format. -/
def skipSpace : List Char → List Char
  | [] => []
  | c :: s => if isspace c then skipSpace s else c :: s

/-- Accumulation of a run of decimal digits. -/
def scanDigits : Nat → List Char → Nat × List Char
  | acc, [] => (acc, [])
  | acc, c :: s =>
    if isdigit c then scanDigits (acc * 10 + (c.toNat - 48)) s else (acc, c :: s)

/-- The digits of a `%d` conversion after the optional sign: at least one
digit is required. -/
def scanUnsigned : List Char → Option (Nat × List Char)
  | [] => none
  | c :: s => if isdigit c then some (scanDigits 0 (c :: s)) else none

/-- The directive `%d`: skip white space, read an optional sign and a
non-empty digit run, convert with `strtol` and store as `int`.  Returns the
stored value and the unread input, or `none` when the conversion fails. -/
def scan_d (s : List Char) : Option (Int × List Char) :=
  match skipSpace s with
  | [] => none
  | c :: r =>
    if c = '-' then
      match scanUnsigned r with
      | none => none
      | some (n, r') => some (toInt32 (clampLong (-(n : Int))), r')
    else if c = '+' then
      match scanUnsigned r with
      | none => none
      | some (n, r') => some (toInt32 (clampLong (n : Int)), r')
    else
      match scanUnsigned (c :: r) with
      | none => none
      | some (n, r') => some (toInt32 (clampLong (n : Int)), r')

/-- Reading of at most `w` non-white-space bytes. -/
def takeToken : Nat → List Char → List Char × List Char
  | 0, s => ([], s)
  | _, [] => ([], [])
  | w + 1, c :: s =>
    if isspace c then ([], c :: s)
    else
      let r := takeToken w s
      (c :: r.1, r.2)

/-- The directive `%<w>s`: skip white space, then read at most `w`
non-white-space bytes; fails at end of input. -/
def scan_s (w : Nat) (s : List Char) : Option (List Char × List Char) :=
  match skipSpace s with
  | [] => none
  | c :: r => some (takeToken w (c :: r))

/-- The call `sscanf(buffer, "%d %49s %49s %d", &book.id, book.title,
book.author, &book.is_rented)`: the fields are assigned in order until a
conversion fails; the remaining fields of `book` keep the value they had. -/
def sscanf_book (buffer : List Char) (book : Book) : Book :=
  match scan_d (cstr buffer) with
  | none => book
  | some (id, r1) =>
    match scan_s 49 r1 with
    | none => { book with id := id }
    | some (title, r2) =>
      match scan_s 49 r2 with
      | none => { book with id := id, title := title }
      | some (author, r3) =>
        match scan_d r3 with
        | none => { book with id := id, title := title, author := author }
        | some (is_rented, _) =>
          { id := id, title := title, author := author, is_rented := is_rented }

/-- The call `sscanf(buffer, "%d", &x)`: `x` keeps its value when the
conversion fails. -/
def sscanf_d (buffer : List Char) (x : Int) : Int :=
  match scan_d (cstr buffer) with
  | none => x
  | some (v, _) => v

/-! ## `printf` directives -/

/-- The decimal digit character of a number below ten. -/
def digitChar (n : Nat) : Char := Char.ofNat (48 + n % 10)

/-- The decimal digits of `n` in front of `acc`; `fuel` bounds the number of
digits and `n + 1` always suffices. -/
def natDigits : Nat → Nat → List Char → List Char
  | 0, _, acc => acc
  | fuel + 1, n, acc =>
    if n / 10 = 0 then digitChar n :: acc
    else natDigits fuel (n / 10) (digitChar n :: acc)

/-- The directive `%d` of `printf` on a natural number. -/
def printNat (n : Nat) : List Char := natDigits (n + 1) n []

/-- The directive `%d` of `printf`. -/
def print_d (v : Int) : List Char :=
  match v with
  | Int.ofNat n => printNat n
  | Int.negSucc n => '-' :: printNat (n + 1)

/-- The output of `fprintf(f, "%d %s %s %d\n", book.id, book.title,
book.author, book.is_rented)`. -/
def fprintf_book (book : Book) : List Char :=
  print_d book.id ++ ' ' :: (book.title ++ ' ' :: (book.author ++ ' ' ::
    (print_d book.is_rented ++ [newline])))

/-- The number of conversions `sscanf(buffer, "%d %49s %49s %d", ...)` performs:
its return value. -/
def sscanf_book_count (buffer : List Char) : Nat :=
  match scan_d (cstr buffer) with
  | none => 0
  | some (_, r1) =>
    match scan_s 49 r1 with
    | none => 1
    | some (_, r2) =>
      match scan_s 49 r2 with
      | none => 2
      | some (_, r3) =>
        match scan_d r3 with
        | none => 3
        | some _ => 4

/-- The call `sscanf(buffer, "%s %s", new_book.title, new_book.author)` of
`modify_book`.  The directives have no width: a token of more than 49 bytes
overruns the 50-byte array, which is undefined behaviour (`none`). -/
def sscanf_title_author (buffer : List Char) (new_book : Book) : Option Book :=
  match scan_s buffer.length (cstr buffer) with
  | none => some new_book
  | some (title, r1) =>
    if 49 < title.length then none
    else
      match scan_s buffer.length r1 with
      | none => some { new_book with title := title }
      | some (author, _) =>
        if 49 < author.length then none
        else some { new_book with title := title, author := author }

/-- The C string found in a 50-byte array of an uninitialised struct after
`strncpy(dst, src, 49)`.  A source shorter than 49 bytes is copied with its
terminator.  Otherwise 49 bytes are copied and no terminator is written:
`spill` stands for the bytes that a later `%s` reads from `dst[49]` on, up to
the first NUL byte it meets (indeterminate memory). -/
def strncpy49 (src spill : List Char) : List Char :=
  if src.length < 49 then src else src.take 49 ++ spill

/-! ## Responses -/

/-- The output of `sprintf(buffer, "<pre>%d<post>", id)`. -/
def sprintf_id (pre : String) (id : Int) (post : String) : List Char :=
  pre.toList ++ (print_d id ++ post.toList)

/-! ## The id allocator -/

/-- One iteration of the loop of `get_next_id`; the state is the pair of the
locals `current_id` and `id`. -/
def get_next_id_step (st : Int × Int) (buffer : List Char) : Int × Int :=
  let current_id := sscanf_d buffer st.1
  if current_id > st.2 then (current_id, current_id) else (current_id, st.2)

/-- The function `get_next_id` on the file it is given (`none`: `fopen`
fails).  `junk` is the indeterminate initial value of `current_id`. -/
def get_next_id (junk : Int) (file : Option (List Char)) : Int :=
  match file with
  | none => 1
  | some content =>
    let st := (fgetsLines content).foldl get_next_id_step (junk, 0)
    toInt32 (st.2 + 1)

/-! ## Rewrite passes over `books.txt` -/

/-- The state of a rewrite loop: the local `book` (one stack slot, so a field
that a conversion did not assign keeps the value of the previous iteration),
the flag `found`, and the bytes written to the temporary file. -/
structure Pass where
  book : Book
  found : Bool
  temp : List Char
deriving DecidableEq, Repr

/-- The body of the `while (fgets(...))` loop of `delete_book`. -/
def delete_step (book_id : Int) (st : Pass) (buffer : List Char) : Pass :=
  let book := sscanf_book buffer st.book
  if book.id = book_id then
    { book := book, found := true, temp := st.temp }
  else
    { book := book, found := st.found, temp := st.temp ++ fprintf_book book }

/-- The body of the `while (fgets(...))` loop of `modify_book`. -/
def modify_step (book_id : Int) (new_title new_author : List Char) (st : Pass)
    (buffer : List Char) : Pass :=
  let book := sscanf_book buffer st.book
  if book.id = book_id then
    let book : Book :=
      { id := book_id, title := new_title, author := new_author,
        is_rented := book.is_rented }
    { book := book, found := true, temp := st.temp ++ fprintf_book book }
  else
    { book := book, found := st.found, temp := st.temp ++ fprintf_book book }

/-- The body of the `while (fgets(...))` loop of `rent_book`. -/
def rent_step (book_id : Int) (st : Pass) (buffer : List Char) : Pass :=
  let book := sscanf_book buffer st.book
  if book.id = book_id ∧ book.is_rented = 0 then
    let book : Book := { book with is_rented := 1 }
    { book := book, found := true, temp := st.temp ++ fprintf_book book }
  else
    { book := book, found := st.found, temp := st.temp ++ fprintf_book book }

/-- The body of the `while (fgets(...))` loop of `return_book`. -/
def return_step (book_id : Int) (st : Pass) (buffer : List Char) : Pass :=
  let book := sscanf_book buffer st.book
  if book.id = book_id ∧ book.is_rented = 1 then
    let book : Book := { book with is_rented := 0 }
    { book := book, found := true, temp := st.temp ++ fprintf_book book }
  else
    { book := book, found := st.found, temp := st.temp ++ fprintf_book book }

/-- The state in which every rewrite loop starts; `g` is the indeterminate
content of the uninitialised local `book`. -/
def Pass.init (g : Book) : Pass := { book := g, found := false, temp := [] }

/-! ## Store operations

Each operation maps the file system before the call to the file system after
it.  The socket versions also return the response written to the client
(`none`: nothing is written).  Values read from the socket are arguments. -/

/-- The function `add_book`.  `title` and `author` are the C strings that the
two `read` calls leave in `book.title` and `book.author`. -/
def add_book (junk : Int) (title author : List Char) (fs : FS) :
    FS × Option (List Char) :=
  let content := fs.books.getD []
  let book : Book :=
    { id := get_next_id junk (some content), title := title, author := author,
      is_rented := 0 }
  ({ fs with books := some (content ++ fprintf_book book) },
    some (sprintf_id "Book added with ID: " book.id ""))

/-- The function `add_book_wrapper`. -/
def add_book_wrapper (junk : Int) (spill_title spill_author : List Char)
    (title author : List Char) (fs : FS) : FS :=
  let content := fs.books.getD []
  let book : Book :=
    { id := get_next_id junk (some content),
      title := strncpy49 title spill_title,
      author := strncpy49 author spill_author,
      is_rented := 0 }
  { fs with books := some (content ++ fprintf_book book) }

/-- The function `delete_book`; `payload` is the text read from the socket and
`junk` the indeterminate initial value of `book_id`. -/
def delete_book (g : Book) (junk : Int) (payload : List Char) (fs : FS) :
    FS × Option (List Char) :=
  match fs.books with
  | none => (fs, none)
  | some content =>
    let book_id := sscanf_d payload junk
    let st := (fgetsLines content).foldl (delete_step book_id) (Pass.init g)
    if st.found then
      ({ fs with books := some st.temp, books_temp := none },
        some (sprintf_id "Book with ID " book_id " has been deleted"))
    else
      ({ fs with books_temp := none },
        some (sprintf_id "Book with ID " book_id " not found"))

/-- The function `delete_book_wrapper`. -/
def delete_book_wrapper (g : Book) (book_id : Int) (fs : FS) : FS :=
  match fs.books with
  | none => fs
  | some content =>
    let st := (fgetsLines content).foldl (delete_step book_id) (Pass.init g)
    if st.found then { fs with books := some st.temp, books_temp := none }
    else { fs with books_temp := none }

/-- The function `modify_book`; `book_id` is the integer and `payload` the text
read from the socket, `new_book` the indeterminate initial content of the local
of that name.  `none`: undefined behaviour (array overrun). -/
def modify_book (g new_book : Book) (book_id : Int) (payload : List Char) (fs : FS) :
    Option (FS × Option (List Char)) :=
  match fs.books with
  | none => some (fs, none)
  | some content =>
    match sscanf_title_author payload new_book with
    | none => none
    | some nb =>
      let st := (fgetsLines content).foldl (modify_step book_id nb.title nb.author)
        (Pass.init g)
      if st.found then
        some ({ fs with books := some st.temp, books_temp := none },
          some (sprintf_id "Book with ID " book_id " has been modified"))
      else
        some ({ fs with books_temp := none },
          some (sprintf_id "Book with ID " book_id " not found"))

/-- The function `rent_book`; `book_id` is the integer read from the socket. -/
def rent_book (g : Book) (book_id : Int) (fs : FS) : FS × Option (List Char) :=
  match fs.books with
  | none => (fs, none)
  | some content =>
    let st := (fgetsLines content).foldl (rent_step book_id) (Pass.init g)
    if st.found then
      ({ fs with books := some st.temp, books_temp := none },
        some (sprintf_id "Book with ID " book_id " has been rented"))
    else
      ({ fs with books_temp := none },
        some (sprintf_id "Book with ID " book_id " not found or already rented"))

/-- The function `rent_book_wrapper`. -/
def rent_book_wrapper (g : Book) (book_id : Int) (fs : FS) : FS :=
  match fs.books with
  | none => fs
  | some content =>
    let st := (fgetsLines content).foldl (rent_step book_id) (Pass.init g)
    if st.found then { fs with books := some st.temp, books_temp_rent := none }
    else { fs with books_temp_rent := none }

/-- The function `return_book`; `payload` is the text read from the socket and
`junk` the indeterminate initial value of `book_id`. -/
def return_book (g : Book) (junk : Int) (payload : List Char) (fs : FS) :
    FS × Option (List Char) :=
  match fs.books with
  | none => (fs, none)
  | some content =>
    let book_id := sscanf_d payload junk
    let st := (fgetsLines content).foldl (return_step book_id) (Pass.init g)
    if st.found then
      ({ fs with books := some st.temp, books_temp := none },
        some (sprintf_id "Book with ID " book_id " has been returned"))
    else
      ({ fs with books_temp := none },
        some (sprintf_id "Book with ID " book_id " not found or not rented"))

/-- The function `return_book_wrapper`. -/
def return_book_wrapper (g : Book) (book_id : Int) (fs : FS) : FS :=
  match fs.books with
  | none => fs
  | some content =>
    let st := (fgetsLines content).foldl (return_step book_id) (Pass.init g)
    if st.found then { fs with books := some st.temp, books_temp_return := none }
    else { fs with books_temp_return := none }

/-- The function `modify_book_wrapper`.  The result of `open` is not checked:
when `books.txt` is absent, `fgets` is called on a null stream (`none`).  The
loop writes to `books_temp_modify.txt`, and the function returns without
closing, renaming or removing that file, so `books.txt` keeps its content;
`flushed` is the number of bytes that the stream has written through to the
temporary file when the function returns. -/
def modify_book_wrapper (g : Book) (spill_title spill_author : List Char)
    (flushed : Nat) (book_id : Int) (new_title new_author : List Char) (fs : FS) :
    Option FS :=
  match fs.books with
  | none => none
  | some content =>
    let st := (fgetsLines content).foldl
      (modify_step book_id (strncpy49 new_title spill_title)
        (strncpy49 new_author spill_author)) (Pass.init g)
    some { fs with books_temp_modify := some (st.temp.take flushed) }

/-! ## The rewrite pass over `members.txt` -/

/-- The records that a line loop of the server reads from the given buffers
when it only reads: each buffer is decoded into the local `book` left by the
previous iteration (`slot`). -/
def scan_records : Book → List (List Char) → List Book
  | _, [] => []
  | slot, buffer :: rest =>
    let book := sscanf_book buffer slot
    book :: scan_records book rest

/-- A title or author as the catalog format stores it: non-empty, at most 49
bytes, none of them white space or NUL. -/
def validTok (t : List Char) : Bool :=
  !t.isEmpty && decide (t.length ≤ 49) && t.all (fun c => !isspace c && c.toNat != 0)

/-- A record that `fprintf_book` writes as a well-formed catalog line
`<id> <title> <author> <is_rented>`. -/
def validBook (b : Book) : Bool :=
  decide (isInt32 b.id) && validTok b.title && validTok b.author
    && decide (isInt32 b.is_rented)

/-- The catalog file made of the lines of the given records. -/
def encodeAll (bs : List Book) : List Char :=
  (bs.map fprintf_book).flatten

/-- The effect of a successful `rent` on one record. -/
def rentRecord (book_id : Int) (b : Book) : Book :=
  if b.id = book_id ∧ b.is_rented = 0 then { b with is_rented := 1 } else b

/-- The effect of a successful `return` on one record. -/
def returnRecord (book_id : Int) (b : Book) : Book :=
  if b.id = book_id ∧ b.is_rented = 1 then { b with is_rented := 0 } else b

/-- Modelled from the spec: the `modify` payload of the wire protocol, the
text blob `"<title> <author>"` (the client that builds it is not part of the
sources). -/
def modify_payload (title author : List Char) : List Char :=
  title ++ ' ' :: author

/-- The input after a number does not go on with a digit. -/
def noDigitHead (rest : List Char) : Prop :=
  ∀ c s, rest = c :: s → isdigit c = false

/-- The input after a token is at its end or goes on with white space. -/
def spaceHead (rest : List Char) : Prop :=
  ∀ c s, rest = c :: s → isspace c = true

/-- A buffer without NUL byte. -/
def nulFree (s : List Char) : Prop := ∀ c ∈ s, c.toNat ≠ 0

/-- The bytes of a catalog line before its newline. -/
def lineBody (book : Book) : List Char :=
  print_d book.id ++ ' ' :: (book.title ++ ' ' :: (book.author ++ ' ' ::
    print_d book.is_rented))

/-- The record a buffer decodes to when all four conversions succeed (the
previous content of `book` is then irrelevant). -/
def decode (buffer : List Char) : Book :=
  sscanf_book buffer { id := 0, title := [], author := [], is_rented := 0 }

/-- A rewrite loop body in general form: `act book` tells whether the decoded
record matches, which record is left in the local `book`, and whether that
record is written to the temporary file. -/
def pass_step (act : Book → Bool × Book × Bool) (st : Pass) (buffer : List Char) : Pass :=
  let book := sscanf_book buffer st.book
  { book := (act book).2.1, found := st.found || (act book).1,
    temp := if (act book).2.2 then st.temp ++ fprintf_book (act book).2.1 else st.temp }

/-- The loop body of `delete_book` in general form. -/
def delete_act (book_id : Int) (b : Book) : Bool × Book × Bool :=
  (decide (b.id = book_id), b, !decide (b.id = book_id))

/-- The effect of a successful `modify` on one record. -/
def modifyRecord (book_id : Int) (new_title new_author : List Char) (b : Book) : Book :=
  if b.id = book_id then
    { id := book_id, title := new_title, author := new_author, is_rented := b.is_rented }
  else b

/-- The loop body of `modify_book` in general form. -/
def modify_act (book_id : Int) (new_title new_author : List Char) (b : Book) :
    Bool × Book × Bool :=
  (decide (b.id = book_id), modifyRecord book_id new_title new_author b, true)

/-- The loop body of `rent_book` in general form. -/
def rent_act (book_id : Int) (b : Book) : Bool × Book × Bool :=
  (decide (b.id = book_id ∧ b.is_rented = 0), rentRecord book_id b, true)

/-- The loop body of `return_book` in general form. -/
def return_act (book_id : Int) (b : Book) : Bool × Book × Bool :=
  (decide (b.id = book_id ∧ b.is_rented = 1), returnRecord book_id b, true)

/-- The text a general loop body writes for a decoded record. -/
def written (act : Book → Bool × Book × Bool) (b : Book) : List Char :=
  if (act b).2.2 then fprintf_book (act b).2.1 else []

/-- The lines that the loop of `modify_book` writes, one for each buffer read;
`slot` is the content of the local `book` before the buffer is decoded. -/
def modify_written (book_id : Int) (new_title new_author : List Char) :
    Book → List (List Char) → List (List Char)
  | _, [] => []
  | slot, buffer :: rest =>
    let book := modifyRecord book_id new_title new_author (sscanf_book buffer slot)
    fprintf_book book :: modify_written book_id new_title new_author book rest

/-- A file system that holds `books.txt` with the given text and no other file. -/
def booksOnly (text : String) : FS :=
  { books := some text.toList, books_temp := none, books_temp_rent := none,
    books_temp_return := none, books_temp_modify := none, members := none,
    members_temp2 := none }

/-- The file system without any file. -/
def noFiles : FS :=
  { books := none, books_temp := none, books_temp_rent := none,
    books_temp_return := none, books_temp_modify := none, members := none,
    members_temp2 := none }

/-- An uninitialised `Book` whose bytes are all zero. -/
def zeroBook : Book := { id := 0, title := [], author := [], is_rented := 0 }

/-- The output of `sprintf(buffer, "ID: %d, Title: %s, Author: %s, Rented: %d",
book.id, book.title, book.author, book.is_rented)`. -/
def sprintf_found (book : Book) : List Char :=
  "ID: ".toList ++ (print_d book.id ++ (", Title: ".toList ++ (book.title ++
    (", Author: ".toList ++ (book.author ++ (", Rented: ".toList ++
      print_d book.is_rented))))))

/-- The `while (fgets(...))` loop of `search_book`: the text left in `buffer`
by the iteration that finds the id and leaves the loop (`break`), or `none`
when the end of the file is reached with `found == 0`.  `slot` is the content of
the local `book` before the first buffer is decoded. -/
def search_loop (book_id : Int) : Book → List (List Char) → Option (List Char)
  | _, [] => none
  | slot, buffer :: rest =>
    let book := sscanf_book buffer slot
    if book.id = book_id then some (sprintf_found book)
    else search_loop book_id book rest

/-- The function `search_book`; `payload` is the text read from the socket and
`junk` the indeterminate initial value of `book_id`. -/
def search_book (g : Book) (junk : Int) (payload : List Char) (fs : FS) :
    FS × Option (List Char) :=
  match fs.books with
  | none => (fs, none)
  | some content =>
    let book_id := sscanf_d payload junk
    match search_loop book_id g (fgetsLines content) with
    | some found => (fs, some found)
    | none => (fs, some (sprintf_id "Book with ID " book_id " not found"))

/-- A catalog that satisfies the data model: every record is written as a
well-formed line, every id is positive, and no two records share an id. -/
def wfCatalog (bs : List Book) : Prop :=
  (∀ b ∈ bs, validBook b = true ∧ 0 < b.id) ∧ (bs.map (fun b => b.id)).Nodup

instance (bs : List Book) : Decidable (wfCatalog bs) := by
  unfold wfCatalog; infer_instance

/-- A message on the socket: each `read` or `recv` of the server takes the
next message the client has sent, either the four bytes of an `int` or a text
with its terminator. -/
inductive Frame where
  | int (v : Int)
  | text (s : List Char)
deriving DecidableEq, Repr

/-- The state of one connection together with the store: the messages sent by
the client and not read yet, whether the client has closed its end, the
messages written to the client so far, whether the socket descriptor is open,
how often `free(client_socket)` was called, the locals `role` and `choice` of
`handle_client`, and the file system. -/
structure Session where
  input : List Frame
  peer_closed : Bool
  output : List (List Char)
  sock_open : Bool
  frees : Nat
  role : Int
  choice : Int
  fs : FS
deriving DecidableEq, Repr

/-- The indeterminate initial contents of the locals of the store operations
and of `authenticate`: the records `book` and `new_book`, an `int`, and the C
string found in a character array. -/
structure Junk where
  book : Book
  new_book : Book
  id : Int
  text : List Char
deriving DecidableEq, Repr

/-- The call `read(sock, &x, sizeof(int))` (or `recv`), with the value `old` of
`x` before the call.  On a closed descriptor the call fails and `x` keeps its
value; so it does at the end of the stream.  `none`: the call waits for data
the client has not sent, or the next message is a text (outside the model). -/
def recv_int (s : Session) (old : Int) : Option (Int × Session) :=
  if s.sock_open = false then some (old, s)
  else
    match s.input with
    | Frame.int v :: rest => some (v, { s with input := rest })
    | Frame.text _ :: _ => none
    | [] => if s.peer_closed = true then some (old, s) else none

/-- The call `read(sock, buffer, size)` (or `recv`) of a text, with the C string
`old` that the buffer holds before the call.  The flag tells whether the call
returned a positive count. -/
def recv_text (s : Session) (old : List Char) : Option (Bool × List Char × Session) :=
  if s.sock_open = false then some (false, old, s)
  else
    match s.input with
    | Frame.text t :: rest => some (true, t, { s with input := rest })
    | Frame.int _ :: _ => none
    | [] => if s.peer_closed = true then some (false, old, s) else none

/-- The call `write(sock, msg, strlen(msg))` (or `send`): nothing reaches the
client when the descriptor is closed. -/
def send (s : Session) (msg : List Char) : Session :=
  if s.sock_open = true then { s with output := s.output ++ [msg] } else s

/-- The end of a store operation: the file system it leaves and the response it
writes, if any. -/
def reply (s : Session) (r : FS × Option (List Char)) : Session :=
  match r.2 with
  | some msg => send { s with fs := r.1 } msg
  | none => { s with fs := r.1 }

/-- The call `rent_book(sock)`: the id is read only after `books.txt` was
opened. -/
def rent_book_session (j : Junk) (s : Session) : Option Session :=
  match s.fs.books with
  | none => some s
  | some _ =>
    match recv_int s j.id with
    | none => none
    | some (book_id, s) => some (reply s (rent_book j.book book_id s.fs))

/-- The call `return_book(sock)`. -/
def return_book_session (j : Junk) (s : Session) : Option Session :=
  match s.fs.books with
  | none => some s
  | some _ =>
    match recv_text s j.text with
    | none => none
    | some (_, payload, s) => some (reply s (return_book j.book j.id payload s.fs))

/-- The call `search_book(sock)`. -/
def search_book_session (j : Junk) (s : Session) : Option Session :=
  match s.fs.books with
  | none => some s
  | some _ =>
    match recv_text s j.text with
    | none => none
    | some (_, payload, s) => some (reply s (search_book j.book j.id payload s.fs))

/-- The call `delete_book(sock)`. -/
def delete_book_session (j : Junk) (s : Session) : Option Session :=
  match s.fs.books with
  | none => some s
  | some _ =>
    match recv_text s j.text with
    | none => none
    | some (_, payload, s) => some (reply s (delete_book j.book j.id payload s.fs))

/-- The call `modify_book(sock)`. -/
def modify_book_session (j : Junk) (s : Session) : Option Session :=
  match s.fs.books with
  | none => some s
  | some _ =>
    match recv_int s j.id with
    | none => none
    | some (book_id, s) =>
      match recv_text s j.text with
      | none => none
      | some (_, payload, s) =>
        match modify_book j.book j.new_book book_id payload s.fs with
        | none => none
        | some r => some (reply s r)

/-- The call `add_book(sock)`: the two `read` calls fill `book.title` and
`book.author`. -/
def add_book_session (j : Junk) (s : Session) : Option Session :=
  match recv_text s j.text with
  | none => none
  | some (_, title, s) =>
    match recv_text s j.text with
    | none => none
    | some (_, author, s) => some (reply s (add_book j.id title author s.fs))

/-- The result of one iteration of the loop of `handle_client`. -/
inductive Outcome where
  | next (s : Session)
  | returned (s : Session)
  | undefined
deriving DecidableEq, Repr

/-- The calls `close(sock); free(client_socket);`.  Freeing the pointer a second
time is undefined behaviour (`none`). -/
def close_and_free (s : Session) : Option Session :=
  if s.frees = 0 then some { s with sock_open := false, frees := 1 } else none

/-- One iteration of the `while (1)` loop of `handle_client`: `role` is read,
then for role 1 or 2 `choice` is read and the `switch` runs.  In the patron
menu `case 4` has no `return` and no `break`: control falls through to
`default`.  `none`: a read waits for data, or is outside the model. -/
def handle_iter (j : Junk) (s : Session) : Option Outcome :=
  match recv_int s s.role with
  | none => none
  | some (role, s) =>
    let s := { s with role := role }
    if role = 1 then
      match recv_int s s.choice with
      | none => none
      | some (choice, s) =>
        let s := { s with choice := choice }
        if choice = 1 then (rent_book_session j s).map Outcome.next
        else if choice = 2 then (return_book_session j s).map Outcome.next
        else if choice = 3 then (search_book_session j s).map Outcome.next
        else if choice = 4 then
          match close_and_free (send s "Exiting".toList) with
          | none => some Outcome.undefined
          | some s => some (Outcome.next (send s "Invalid Choice".toList))
        else some (Outcome.next (send s "Invalid Choice".toList))
    else if role = 2 then
      match recv_int s s.choice with
      | none => none
      | some (choice, s) =>
        let s := { s with choice := choice }
        if choice = 1 then (add_book_session j s).map Outcome.next
        else if choice = 2 then (delete_book_session j s).map Outcome.next
        else if choice = 3 then (modify_book_session j s).map Outcome.next
        else if choice = 4 then (search_book_session j s).map Outcome.next
        else if choice = 5 then
          match close_and_free (send s "Exiting".toList) with
          | none => some Outcome.undefined
          | some s => some (Outcome.returned s)
        else some (Outcome.next (send s "Invalid Choice".toList))
    else some (Outcome.next (send s "Invalid login option".toList))

/-- The function `handle_client`, run for at most `n` iterations of its loop:
the outcome of the last iteration run. -/
def handle_client (j : Junk) : Nat → Session → Option Outcome
  | 0, s => some (Outcome.next s)
  | n + 1, s =>
    match handle_iter j s with
    | some (Outcome.next s') => handle_client j n s'
    | r => r

/-- A session at the start of `handle_client`: the socket is open, nothing was
written or freed, and `role` and `choice` hold the given indeterminate values. -/
def Session.start (input : List Frame) (role choice : Int) (fs : FS) : Session :=
  { input := input, peer_closed := false, output := [], sock_open := true, frees := 0,
    role := role, choice := choice, fs := fs }

/-- A `Junk` whose bytes are all zero. -/
def zeroJunk : Junk := { book := zeroBook, new_book := zeroBook, id := 0, text := [] }

/-- The C library `strcmp` on two C strings: zero when they are equal, negative
or positive according to the first byte that differs. -/
def strcmp : List Char → List Char → Int
  | [], [] => 0
  | [], _ :: _ => -1
  | _ :: _, [] => 1
  | a :: s, b :: t =>
    if a = b then strcmp s t else if a.toNat < b.toNat then -1 else 1

/-- The function `check_admin_credentials_test`. -/
def check_admin_credentials_test (username password : List Char) : Int :=
  if strcmp username "admin".toList = 0 ∧ strcmp password "admin".toList = 0 then 1 else 0

/-! ## The mutex `file_mutex` as explicit state -/

/-- The state of `file_mutex`: whether it is held, and how often
`pthread_mutex_lock` has acquired it. -/
structure Mutex where
  locked : Bool
  acquisitions : Nat
deriving DecidableEq, Repr

/-- The mutex before any operation: free and never acquired. -/
def Mutex.free : Mutex := { locked := false, acquisitions := 0 }

/-- The call `pthread_mutex_unlock(&file_mutex)`. -/
def pthread_mutex_unlock (m : Mutex) : Mutex := { m with locked := false }

/-- The results of the system calls that one store operation makes, and what
its loop meets: whether `open` returns a descriptor, `flock` returns 0,
`fdopen` returns a stream, `fopen` of the temporary file returns a stream,
whether the file read has a line, and whether a line matches. -/
structure Calls where
  open_ok : Bool
  flock_ok : Bool
  fdopen_ok : Bool
  fopen_ok : Bool
  has_line : Bool
  found : Bool
deriving DecidableEq, Repr

/-- How a store operation ends, with the state of the mutex at that point: it
returns, or it reaches undefined behaviour (a null stream is passed to `fgets`,
`fprintf` or `fclose`) and does not return, or `pthread_mutex_lock` waits for a
mutex that is held. -/
inductive Exit where
  | returned (m : Mutex)
  | crashed (m : Mutex)
  | blocked
deriving DecidableEq, Repr

/-- The call `pthread_mutex_lock(&file_mutex)` at the start of an operation,
followed by the rest of the operation. -/
def with_lock (m : Mutex) (body : Mutex → Exit) : Exit :=
  if m.locked = true then Exit.blocked
  else body { locked := true, acquisitions := m.acquisitions + 1 }

/-- The lock and unlock calls of `register_member` along its paths. -/
def register_member_locks (c : Calls) (m : Mutex) : Exit :=
  with_lock m fun m =>
    if c.open_ok = false then Exit.returned (pthread_mutex_unlock m)
    else if c.flock_ok = false then Exit.returned (pthread_mutex_unlock m)
    else Exit.returned (pthread_mutex_unlock m)

/-- The lock and unlock calls of `add_book` along its paths. -/
def add_book_locks (c : Calls) (m : Mutex) : Exit :=
  with_lock m fun m =>
    if c.open_ok = false then Exit.returned (pthread_mutex_unlock m)
    else if c.flock_ok = false then Exit.returned (pthread_mutex_unlock m)
    else Exit.returned (pthread_mutex_unlock m)

/-- The lock and unlock calls of `add_book_wrapper` along its paths. -/
def add_book_wrapper_locks (c : Calls) (m : Mutex) : Exit :=
  with_lock m fun m =>
    if c.open_ok = false then Exit.returned (pthread_mutex_unlock m)
    else if c.flock_ok = false then Exit.returned (pthread_mutex_unlock m)
    else Exit.returned (pthread_mutex_unlock m)

/-- The paths shared by `delete_book`, `modify_book`, `rent_book`, `return_book`,
`rent_book_wrapper` and `return_book_wrapper`: the results of `open` and `flock`
are checked, those of `fdopen` and `fopen` are not, so a null stream reaches
`fgets`, `fprintf` or `fclose`. -/
def rewrite_locks (c : Calls) (m : Mutex) : Exit :=
  with_lock m fun m =>
    if c.open_ok = false then Exit.returned (pthread_mutex_unlock m)
    else if c.flock_ok = false then Exit.returned (pthread_mutex_unlock m)
    else if c.fdopen_ok = false ∨ c.fopen_ok = false then Exit.crashed m
    else if c.found = true then Exit.returned (pthread_mutex_unlock m)
    else Exit.returned (pthread_mutex_unlock m)

/-- The lock and unlock calls of `delete_book` along its paths. -/
def delete_book_locks (c : Calls) (m : Mutex) : Exit := rewrite_locks c m

/-- The lock and unlock calls of `modify_book` along its paths. -/
def modify_book_locks (c : Calls) (m : Mutex) : Exit := rewrite_locks c m

/-- The lock and unlock calls of `rent_book` along its paths. -/
def rent_book_locks (c : Calls) (m : Mutex) : Exit := rewrite_locks c m

/-- The lock and unlock calls of `return_book` along its paths. -/
def return_book_locks (c : Calls) (m : Mutex) : Exit := rewrite_locks c m

/-- The lock and unlock calls of `rent_book_wrapper` along its paths. -/
def rent_book_wrapper_locks (c : Calls) (m : Mutex) : Exit := rewrite_locks c m

/-- The lock and unlock calls of `return_book_wrapper` along its paths. -/
def return_book_wrapper_locks (c : Calls) (m : Mutex) : Exit := rewrite_locks c m

/-- The lock and unlock calls of `search_book` along its paths: the result of
`fdopen` is checked too, and no temporary file is opened. -/
def search_book_locks (c : Calls) (m : Mutex) : Exit :=
  with_lock m fun m =>
    if c.open_ok = false then Exit.returned (pthread_mutex_unlock m)
    else if c.flock_ok = false then Exit.returned (pthread_mutex_unlock m)
    else if c.fdopen_ok = false then Exit.returned (pthread_mutex_unlock m)
    else if c.found = true then Exit.returned (pthread_mutex_unlock m)
    else Exit.returned (pthread_mutex_unlock m)

/-- The lock and unlock calls of `delete_book_wrapper` along its paths: the
results of `open`, `flock`, `fdopen` and `fopen` are all checked. -/
def delete_book_wrapper_locks (c : Calls) (m : Mutex) : Exit :=
  with_lock m fun m =>
    if c.open_ok = false then Exit.returned (pthread_mutex_unlock m)
    else if c.flock_ok = false then Exit.returned (pthread_mutex_unlock m)
    else if c.fdopen_ok = false then Exit.returned (pthread_mutex_unlock m)
    else if c.fopen_ok = false then Exit.returned (pthread_mutex_unlock m)
    else if c.found = true then Exit.returned (pthread_mutex_unlock m)
    else Exit.returned (pthread_mutex_unlock m)

/-- The lock and unlock calls of `number_of_rented_books` along its paths.  No
result is checked: after a failed `open`, `fdopen(-1, ...)` gives a null stream,
which `fgets` receives; a null temporary stream reaches `fprintf` or `fclose`. -/
def number_of_rented_books_locks (c : Calls) (m : Mutex) : Exit :=
  with_lock m fun m =>
    if c.open_ok = false ∨ c.fdopen_ok = false then Exit.crashed m
    else if c.fopen_ok = false then Exit.crashed m
    else if c.found = true then Exit.returned (pthread_mutex_unlock m)
    else Exit.returned (pthread_mutex_unlock m)

/-- The lock and unlock calls of `modify_book_wrapper` along its paths.  No
result is checked: after a failed `open`, `fdopen(-1, ...)` gives a null stream,
which `fgets` receives.  The temporary stream is written by `fprintf` for every
line read and is never closed, so a null temporary stream is harmless only when
the file has no line. -/
def modify_book_wrapper_locks (c : Calls) (m : Mutex) : Exit :=
  with_lock m fun m =>
    if c.open_ok = false ∨ c.fdopen_ok = false then Exit.crashed m
    else if c.fopen_ok = false ∧ c.has_line = true then Exit.crashed m
    else Exit.returned (pthread_mutex_unlock m)

/-! ## Lemmas on the codec -/

theorem digitChar_toNat (n : Nat) : (digitChar n).toNat = 48 + n % 10 := by
  have h : ∀ m, m < 10 → (Char.ofNat (48 + m)).toNat = 48 + m := by decide
  exact h (n % 10) (Nat.mod_lt _ (by decide))

theorem isdigit_digitChar (n : Nat) : isdigit (digitChar n) = true := by
  have h := digitChar_toNat n
  have h2 := Nat.mod_lt n (show 0 < 10 by decide)
  simp only [isdigit, h, Bool.and_eq_true, decide_eq_true_eq]
  omega

theorem natDigits_append (fuel n : Nat) (acc : List Char) :
    natDigits fuel n acc = natDigits fuel n [] ++ acc := by
  induction fuel generalizing n acc with
  | zero => simp [natDigits]
  | succ fuel ih =>
    unfold natDigits
    by_cases h : n / 10 = 0
    · simp [h]
    · simp only [h, if_false]
      rw [ih (n / 10) (digitChar n :: acc), ih (n / 10) [digitChar n]]
      simp

theorem scanDigits_digitChar (a n : Nat) (s : List Char) :
    scanDigits a (digitChar n :: s) = scanDigits (a * 10 + n % 10) s := by
  rw [scanDigits, isdigit_digitChar, digitChar_toNat]
  simp

theorem scanDigits_natDigits (fuel n : Nat) (acc : List Char) (h : n < fuel) :
    ∃ L, ∀ a, scanDigits a (natDigits fuel n acc) = scanDigits (a * 10 ^ L + n) acc := by
  induction fuel generalizing n acc with
  | zero => omega
  | succ fuel ih =>
    unfold natDigits
    by_cases h0 : n / 10 = 0
    · refine ⟨1, fun a => ?_⟩
      simp only [h0, if_true]
      rw [scanDigits_digitChar]
      have : n % 10 = n := by omega
      rw [this]; simp
    · simp only [h0, if_false]
      obtain ⟨L, hL⟩ := ih (n / 10) (digitChar n :: acc) (by omega)
      refine ⟨L + 1, fun a => ?_⟩
      rw [hL, scanDigits_digitChar]
      congr 1
      have := Nat.div_add_mod n 10
      rw [pow_succ]
      nlinarith [this]

theorem natDigits_head (fuel n : Nat) (acc : List Char) (h : n < fuel) :
    ∃ c s, natDigits fuel n acc = c :: s ∧ isdigit c = true := by
  induction fuel generalizing n acc with
  | zero => omega
  | succ fuel ih =>
    unfold natDigits
    by_cases h0 : n / 10 = 0
    · exact ⟨digitChar n, acc, by simp [h0], isdigit_digitChar n⟩
    · simp only [h0, if_false]
      exact ih (n / 10) _ (by omega)

theorem natDigits_all (fuel n : Nat) (acc : List Char) :
    ∀ c ∈ natDigits fuel n acc, isdigit c = true ∨ c ∈ acc := by
  induction fuel generalizing n acc with
  | zero => intro c hc; right; simpa [natDigits] using hc
  | succ fuel ih =>
    unfold natDigits
    by_cases h0 : n / 10 = 0
    · intro c hc
      simp only [h0, if_true, List.mem_cons] at hc
      rcases hc with rfl | hc
      · left; exact isdigit_digitChar n
      · right; exact hc
    · simp only [h0, if_false]
      intro c hc
      rcases ih (n / 10) _ c hc with h | h
      · left; exact h
      · simp only [List.mem_cons] at h
        rcases h with rfl | h
        · left; exact isdigit_digitChar n
        · right; exact h

theorem natDigits_length (fuel n k : Nat) (acc : List Char) (hk : n < 10 ^ (k + 1)) :
    (natDigits fuel n acc).length ≤ acc.length + (k + 1) := by
  induction fuel generalizing n k acc with
  | zero => simp [natDigits]
  | succ fuel ih =>
    unfold natDigits
    by_cases h0 : n / 10 = 0
    · simp [h0]
    · simp only [h0, if_false]
      cases k with
      | zero => simp at hk; omega
      | succ k =>
        have h1 : n / 10 < 10 ^ (k + 1) := by
          rw [Nat.div_lt_iff_lt_mul (by decide)]
          rw [pow_succ] at hk; exact hk
        have := ih (n / 10) k (digitChar n :: acc) h1
        simp only [List.length_cons] at this
        omega

theorem isdigit_bounds {c : Char} (h : isdigit c = true) : 48 ≤ c.toNat ∧ c.toNat ≤ 57 := by
  simpa [isdigit] using h

theorem isdigit_not_space {c : Char} (h : isdigit c = true) : isspace c = false := by
  have := isdigit_bounds h
  simp only [isspace, Bool.or_eq_false_iff, beq_eq_false_iff_ne, ne_eq]
  omega

theorem isdigit_ne_minus {c : Char} (h : isdigit c = true) : c ≠ '-' := by
  rintro rfl; revert h; decide

theorem isdigit_ne_plus {c : Char} (h : isdigit c = true) : c ≠ '+' := by
  rintro rfl; revert h; decide

theorem isdigit_ne_newline {c : Char} (h : isdigit c = true) : c ≠ newline := by
  rintro rfl; revert h; decide

theorem isdigit_ne_nul {c : Char} (h : isdigit c = true) : c.toNat ≠ 0 := by
  have := isdigit_bounds h
  omega

theorem toInt32_clampLong {v : Int} (h : isInt32 v) : toInt32 (clampLong v) = v := by
  unfold isInt32 at h
  unfold toInt32 clampLong
  split_ifs <;> omega

theorem toInt32_isInt32 (v : Int) : isInt32 (toInt32 v) := by
  unfold isInt32 toInt32
  omega

theorem toInt32_id {v : Int} (h : isInt32 v) : toInt32 v = v := by
  unfold isInt32 at h
  unfold toInt32
  omega

theorem scanDigits_stop (a : Nat) (rest : List Char) (h : noDigitHead rest) :
    scanDigits a rest = (a, rest) := by
  cases rest with
  | nil => rfl
  | cons c s => simp [scanDigits, h c s rfl]

theorem printNat_head (n : Nat) : ∃ c s, printNat n = c :: s ∧ isdigit c = true :=
  natDigits_head (n + 1) n [] (by omega)

theorem scanUnsigned_printNat (n : Nat) (rest : List Char) (h : noDigitHead rest) :
    scanUnsigned (printNat n ++ rest) = some (n, rest) := by
  obtain ⟨c, s, hcs, hd⟩ := printNat_head n
  obtain ⟨L, hL⟩ := scanDigits_natDigits (n + 1) n rest (by omega)
  have e : printNat n ++ rest = natDigits (n + 1) n rest := by
    unfold printNat; rw [natDigits_append (n + 1) n rest]
  have e2 : printNat n ++ rest = c :: (s ++ rest) := by rw [hcs]; rfl
  have e3 : scanUnsigned (c :: (s ++ rest)) = some (scanDigits 0 (c :: (s ++ rest))) := by
    simp [scanUnsigned, hd]
  rw [e2, e3, ← e2, e, hL 0, scanDigits_stop _ _ h]
  simp

theorem print_d_head (v : Int) :
    ∃ c s, print_d v = c :: s ∧ isspace c = false ∧ (isdigit c = true ∨ c = '-') := by
  cases v with
  | ofNat n =>
    obtain ⟨c, s, hcs, hd⟩ := printNat_head n
    exact ⟨c, s, by simp [print_d, hcs], isdigit_not_space hd, Or.inl hd⟩
  | negSucc n => exact ⟨'-', printNat (n + 1), by simp [print_d], by decide, Or.inr rfl⟩

theorem print_d_all (v : Int) : ∀ c ∈ print_d v, isdigit c = true ∨ c = '-' := by
  cases v with
  | ofNat n =>
    intro c hc
    rcases natDigits_all (n + 1) n [] c (by simpa [print_d, printNat] using hc) with h | h
    · exact Or.inl h
    · simp at h
  | negSucc n =>
    intro c hc
    simp only [print_d, List.mem_cons] at hc
    rcases hc with rfl | hc
    · exact Or.inr rfl
    · rcases natDigits_all (n + 2) (n + 1) [] c (by simpa [printNat] using hc) with h | h
      · exact Or.inl h
      · simp at h

theorem print_d_length {v : Int} (h : isInt32 v) : (print_d v).length ≤ 11 := by
  unfold isInt32 at h
  cases v with
  | ofNat n =>
    have hn : n < 10 ^ (9 + 1) := by
      have : (Int.ofNat n) = (n : Int) := rfl
      norm_num; omega
    have := natDigits_length (n + 1) n 9 [] hn
    simp only [List.length_nil] at this
    simp only [print_d, printNat]
    omega
  | negSucc n =>
    have hn : n + 1 < 10 ^ (9 + 1) := by
      have : Int.negSucc n = -((n : Int) + 1) := Int.negSucc_eq n
      norm_num; omega
    have := natDigits_length (n + 1 + 1) (n + 1) 9 [] hn
    simp only [List.length_nil] at this
    simp only [print_d, printNat, List.length_cons]
    omega

theorem skipSpace_cons_of_not_space {c : Char} (s : List Char) (h : isspace c = false) :
    skipSpace (c :: s) = c :: s := by
  simp [skipSpace, h]

theorem scan_d_print_d (v : Int) (rest : List Char) (hv : isInt32 v)
    (hr : noDigitHead rest) : scan_d (print_d v ++ rest) = some (v, rest) := by
  cases v with
  | ofNat n =>
    obtain ⟨c, s, hcs, hd⟩ := printNat_head n
    have e : print_d (Int.ofNat n) ++ rest = c :: (s ++ rest) := by
      simp [print_d, hcs]
    have hu := scanUnsigned_printNat n rest hr
    rw [hcs] at hu
    unfold scan_d
    rw [e, skipSpace_cons_of_not_space _ (isdigit_not_space hd)]
    simp only [isdigit_ne_minus hd, isdigit_ne_plus hd, if_false]
    simp only [List.cons_append] at hu
    rw [hu]
    simp only [Option.some.injEq, Prod.mk.injEq, and_true]
    exact toInt32_clampLong hv
  | negSucc n =>
    have hu := scanUnsigned_printNat (n + 1) rest hr
    unfold scan_d
    have e : print_d (Int.negSucc n) ++ rest = '-' :: (printNat (n + 1) ++ rest) := by
      simp [print_d]
    rw [e, skipSpace_cons_of_not_space _ (by decide)]
    simp only [if_true, hu]
    simp only [Option.some.injEq, Prod.mk.injEq, and_true]
    have : (-((n + 1 : Nat) : Int)) = Int.negSucc n := by
      simp [Int.negSucc_eq]
    rw [this]
    exact toInt32_clampLong hv

/-! ### Tokens -/

theorem takeToken_append (w : Nat) (t rest : List Char)
    (ht : ∀ c ∈ t, isspace c = false) (hw : t.length ≤ w) (hr : spaceHead rest) :
    takeToken w (t ++ rest) = (t, rest) := by
  induction t generalizing w with
  | nil =>
    cases rest with
    | nil => cases w <;> rfl
    | cons c s =>
      cases w with
      | zero => rfl
      | succ w => simp [takeToken, hr c s rfl]
  | cons a t ih =>
    cases w with
    | zero => simp at hw
    | succ w =>
      have ha : isspace a = false := ht a (List.mem_cons_self _ _)
      have := ih w (fun c hc => ht c (List.mem_cons_of_mem _ hc))
        (by simpa using hw)
      simp [takeToken, ha, this]

theorem validTok_ne_nil {t : List Char} (h : validTok t = true) : t ≠ [] := by
  intro e; subst e; simp [validTok] at h

theorem validTok_length {t : List Char} (h : validTok t = true) : t.length ≤ 49 := by
  simp only [validTok, Bool.and_eq_true, decide_eq_true_eq] at h
  exact h.1.2

theorem validTok_mem {t : List Char} (h : validTok t = true) :
    ∀ c ∈ t, isspace c = false ∧ c.toNat ≠ 0 := by
  simp only [validTok, Bool.and_eq_true, List.all_eq_true, Bool.not_eq_true',
    bne_iff_ne, ne_eq] at h
  exact h.2

theorem validTok_intro {t : List Char} (h1 : t ≠ []) (h2 : t.length ≤ 49)
    (h3 : ∀ c ∈ t, isspace c = false ∧ c.toNat ≠ 0) : validTok t = true := by
  simp only [validTok, Bool.and_eq_true, List.all_eq_true, Bool.not_eq_true',
    bne_iff_ne, ne_eq, decide_eq_true_eq]
  refine ⟨⟨?_, h2⟩, h3⟩
  cases t with
  | nil => exact absurd rfl h1
  | cons a t => rfl

theorem scan_s_token (t rest : List Char) (ht : validTok t = true) (hr : spaceHead rest) :
    scan_s 49 (' ' :: (t ++ rest)) = some (t, rest) := by
  have hm := validTok_mem ht
  cases t with
  | nil => exact absurd rfl (validTok_ne_nil ht)
  | cons a t =>
    have ha : isspace a = false := (hm a (List.mem_cons_self _ _)).1
    have hs : skipSpace (' ' :: (a :: t ++ rest)) = a :: (t ++ rest) := by
      have : isspace ' ' = true := by decide
      simp [skipSpace, this, ha]
    unfold scan_s
    rw [hs]
    have := takeToken_append 49 (a :: t) rest (fun c hc => (hm c hc).1)
      (validTok_length ht) hr
    simpa using this

theorem scan_d_space (s : List Char) : scan_d (' ' :: s) = scan_d s := by
  have : skipSpace (' ' :: s) = skipSpace s := by
    have : isspace ' ' = true := by decide
    simp [skipSpace, this]
  unfold scan_d
  rw [this]

/-! ### Bytes of the unread input -/

theorem cstr_nulFree (buffer : List Char) : nulFree (cstr buffer) := by
  intro c hc
  have := List.mem_takeWhile_imp hc
  simpa using this

theorem cstr_of_nulFree {s : List Char} (h : nulFree s) : cstr s = s := by
  unfold cstr
  rw [List.takeWhile_eq_self_iff]
  intro c hc
  simpa using h c hc

theorem skipSpace_subset (s : List Char) : ∀ c ∈ skipSpace s, c ∈ s := by
  induction s with
  | nil => simp [skipSpace]
  | cons a s ih =>
    intro c hc
    unfold skipSpace at hc
    split_ifs at hc
    · exact List.mem_cons_of_mem _ (ih c hc)
    · exact hc

theorem skipSpace_head {s r : List Char} {c : Char} (h : skipSpace s = c :: r) :
    isspace c = false := by
  induction s with
  | nil => simp [skipSpace] at h
  | cons a s ih =>
    unfold skipSpace at h
    split_ifs at h with ha
    · exact ih h
    · simp only [List.cons.injEq] at h
      rw [← h.1]; simpa using ha

theorem scanDigits_subset (a : Nat) (s : List Char) : ∀ c ∈ (scanDigits a s).2, c ∈ s := by
  induction s generalizing a with
  | nil => simp [scanDigits]
  | cons d s ih =>
    intro c hc
    unfold scanDigits at hc
    split_ifs at hc
    · exact List.mem_cons_of_mem _ (ih _ c hc)
    · exact hc

theorem scanUnsigned_subset {s r : List Char} {n : Nat} (h : scanUnsigned s = some (n, r)) :
    ∀ c ∈ r, c ∈ s := by
  cases s with
  | nil => simp [scanUnsigned] at h
  | cons d s =>
    simp only [scanUnsigned] at h
    split_ifs at h
    simp only [Option.some.injEq] at h
    intro c hc
    have := scanDigits_subset 0 (d :: s) c (by rw [h]; exact hc)
    exact this

theorem scan_d_subset {s r : List Char} {v : Int} (h : scan_d s = some (v, r)) :
    ∀ c ∈ r, c ∈ s := by
  unfold scan_d at h
  intro c hc
  apply skipSpace_subset
  cases hs : skipSpace s with
  | nil => rw [hs] at h; simp at h
  | cons a t =>
    rw [hs] at h
    simp only at h
    split_ifs at h
    · cases hu : scanUnsigned t with
      | none => rw [hu] at h; simp at h
      | some p =>
        rw [hu] at h
        simp only [Option.some.injEq, Prod.mk.injEq] at h
        exact List.mem_cons_of_mem _ (scanUnsigned_subset hu c (h.2 ▸ hc))
    · cases hu : scanUnsigned t with
      | none => rw [hu] at h; simp at h
      | some p =>
        rw [hu] at h
        simp only [Option.some.injEq, Prod.mk.injEq] at h
        exact List.mem_cons_of_mem _ (scanUnsigned_subset hu c (h.2 ▸ hc))
    · cases hu : scanUnsigned (a :: t) with
      | none => rw [hu] at h; simp at h
      | some p =>
        rw [hu] at h
        simp only [Option.some.injEq, Prod.mk.injEq] at h
        exact scanUnsigned_subset hu c (h.2 ▸ hc)

theorem scan_d_isInt32 {s r : List Char} {v : Int} (h : scan_d s = some (v, r)) :
    isInt32 v := by
  unfold scan_d at h
  cases hs : skipSpace s with
  | nil => rw [hs] at h; simp at h
  | cons a t =>
    rw [hs] at h
    simp only at h
    split_ifs at h
    · cases hu : scanUnsigned t with
      | none => rw [hu] at h; simp at h
      | some p =>
        rw [hu] at h
        simp only [Option.some.injEq, Prod.mk.injEq] at h
        rw [← h.1]; exact toInt32_isInt32 _
    · cases hu : scanUnsigned t with
      | none => rw [hu] at h; simp at h
      | some p =>
        rw [hu] at h
        simp only [Option.some.injEq, Prod.mk.injEq] at h
        rw [← h.1]; exact toInt32_isInt32 _
    · cases hu : scanUnsigned (a :: t) with
      | none => rw [hu] at h; simp at h
      | some p =>
        rw [hu] at h
        simp only [Option.some.injEq, Prod.mk.injEq] at h
        rw [← h.1]; exact toInt32_isInt32 _

theorem takeToken_props (w : Nat) (s : List Char) :
    (takeToken w s).1.length ≤ w ∧ (∀ c ∈ (takeToken w s).1, isspace c = false ∧ c ∈ s)
      ∧ ∀ c ∈ (takeToken w s).2, c ∈ s := by
  induction w generalizing s with
  | zero => simp [takeToken]
  | succ w ih =>
    cases s with
    | nil => simp [takeToken]
    | cons a s =>
      unfold takeToken
      split_ifs with ha
      · simp
      · obtain ⟨h1, h2, h3⟩ := ih s
        refine ⟨by simpa using h1, ?_, ?_⟩
        · intro c hc
          simp only [List.mem_cons] at hc
          rcases hc with rfl | hc
          · exact ⟨by simpa using ha, List.mem_cons_self _ _⟩
          · exact ⟨(h2 c hc).1, List.mem_cons_of_mem _ (h2 c hc).2⟩
        · intro c hc
          exact List.mem_cons_of_mem _ (h3 c hc)

theorem scan_s_props {s t r : List Char} (h : scan_s 49 s = some (t, r)) (hs : nulFree s) :
    validTok t = true ∧ nulFree r := by
  unfold scan_s at h
  cases hk : skipSpace s with
  | nil => rw [hk] at h; simp at h
  | cons a u =>
    rw [hk] at h
    simp only [Option.some.injEq] at h
    have ha := skipSpace_head hk
    obtain ⟨h1, h2, h3⟩ := takeToken_props 49 (a :: u)
    rw [h] at h1 h2 h3
    simp only at h1 h2 h3
    have hsub : ∀ c ∈ a :: u, c ∈ s := by
      intro c hc; exact skipSpace_subset s c (hk ▸ hc)
    refine ⟨validTok_intro ?_ h1 ?_, ?_⟩
    · intro e
      have : (takeToken 49 (a :: u)).1 = a :: (takeToken 48 u).1 := by
        simp [takeToken, ha]
      rw [h] at this
      simp [e] at this
    · intro c hc
      exact ⟨(h2 c hc).1, hs c (hsub c (h2 c hc).2)⟩
    · intro c hc
      exact hs c (hsub c (h3 c hc))

/-! ### Catalog lines -/

theorem fprintf_book_eq (b : Book) : fprintf_book b = lineBody b ++ [newline] := by
  simp [fprintf_book, lineBody]

theorem validBook_iff {b : Book} (h : validBook b = true) :
    isInt32 b.id ∧ validTok b.title = true ∧ validTok b.author = true ∧ isInt32 b.is_rented := by
  simp only [validBook, Bool.and_eq_true, decide_eq_true_eq] at h
  exact ⟨h.1.1.1, h.1.1.2, h.1.2, h.2⟩

theorem print_d_char {v : Int} {c : Char} (hc : c ∈ print_d v) :
    c.toNat ≠ 0 ∧ c ≠ newline := by
  rcases print_d_all v c hc with h | h
  · exact ⟨isdigit_ne_nul h, isdigit_ne_newline h⟩
  · subst h; exact ⟨by decide, by decide⟩

theorem validTok_char {t : List Char} (h : validTok t = true) {c : Char} (hc : c ∈ t) :
    c.toNat ≠ 0 ∧ c ≠ newline := by
  obtain ⟨h1, h2⟩ := validTok_mem h c hc
  refine ⟨h2, ?_⟩
  rintro rfl
  revert h1; decide

theorem lineBody_char {b : Book} (h : validBook b = true) {c : Char} (hc : c ∈ lineBody b) :
    c.toNat ≠ 0 ∧ c ≠ newline := by
  obtain ⟨_, ht, ha, _⟩ := validBook_iff h
  simp only [lineBody, List.mem_append, List.mem_cons] at hc
  rcases hc with hc | rfl | hc | rfl | hc | rfl | hc
  · exact print_d_char hc
  · exact ⟨by decide, by decide⟩
  · exact validTok_char ht hc
  · exact ⟨by decide, by decide⟩
  · exact validTok_char ha hc
  · exact ⟨by decide, by decide⟩
  · exact print_d_char hc

theorem lineBody_length {b : Book} (h : validBook b = true) : (lineBody b).length ≤ 123 := by
  obtain ⟨hi, ht, ha, hr⟩ := validBook_iff h
  have h1 := print_d_length hi
  have h2 := print_d_length hr
  have h3 := validTok_length ht
  have h4 := validTok_length ha
  simp only [lineBody, List.length_append, List.length_cons]
  omega

theorem fprintf_book_nulFree {b : Book} (h : validBook b = true) : nulFree (fprintf_book b) := by
  intro c hc
  rw [fprintf_book_eq] at hc
  simp only [List.mem_append, List.mem_singleton] at hc
  rcases hc with hc | rfl
  · exact (lineBody_char h hc).1
  · decide

theorem sscanf_book_fprintf {b : Book} (h : validBook b = true) (slot : Book) :
    sscanf_book (fprintf_book b) slot = b ∧ sscanf_book_count (fprintf_book b) = 4 := by
  obtain ⟨hi, ht, ha, hr⟩ := validBook_iff h
  have hsp : ∀ X : List Char, spaceHead (' ' :: X) := by
    intro X c s e
    simp only [List.cons.injEq] at e
    rw [← e.1]; decide
  have hnd : ∀ X : List Char, noDigitHead (' ' :: X) := by
    intro X c s e
    simp only [List.cons.injEq] at e
    rw [← e.1]; decide
  have hnl : noDigitHead [newline] := by
    intro c s e
    simp only [List.cons.injEq] at e
    rw [← e.1]; decide
  have e0 : cstr (fprintf_book b) = fprintf_book b := cstr_of_nulFree (fprintf_book_nulFree h)
  have e1 := scan_d_print_d b.id (' ' :: (b.title ++ ' ' :: (b.author ++ ' ' ::
    (print_d b.is_rented ++ [newline])))) hi (hnd _)
  have e2 := scan_s_token b.title (' ' :: (b.author ++ ' ' ::
    (print_d b.is_rented ++ [newline]))) ht (hsp _)
  have e3 := scan_s_token b.author (' ' :: (print_d b.is_rented ++ [newline])) ha (hsp _)
  have e4 : scan_d (' ' :: (print_d b.is_rented ++ [newline])) = some (b.is_rented, [newline]) := by
    rw [scan_d_space]; exact scan_d_print_d _ _ hr hnl
  have e1' : scan_d (fprintf_book b) = some (b.id, ' ' :: (b.title ++ ' ' :: (b.author ++ ' ' ::
    (print_d b.is_rented ++ [newline])))) := e1
  constructor
  · unfold sscanf_book
    rw [e0, e1']
    simp only [e2, e3, e4]
  · unfold sscanf_book_count
    rw [e0, e1']
    simp only [e2, e3, e4]

theorem sscanf_book_full {buffer : List Char} (h : sscanf_book_count buffer = 4) (slot : Book) :
    sscanf_book buffer slot = decode buffer ∧ validBook (decode buffer) = true := by
  unfold sscanf_book_count at h
  unfold decode sscanf_book
  cases h1 : scan_d (cstr buffer) with
  | none => rw [h1] at h; simp at h
  | some p1 =>
    obtain ⟨id, r1⟩ := p1
    rw [h1] at h
    simp only at h ⊢
    cases h2 : scan_s 49 r1 with
    | none => rw [h2] at h; simp at h
    | some p2 =>
      obtain ⟨title, r2⟩ := p2
      rw [h2] at h
      simp only at h ⊢
      cases h3 : scan_s 49 r2 with
      | none => rw [h3] at h; simp at h
      | some p3 =>
        obtain ⟨author, r3⟩ := p3
        rw [h3] at h
        simp only at h ⊢
        cases h4 : scan_d r3 with
        | none => rw [h4] at h; simp at h
        | some p4 =>
          obtain ⟨r, r4⟩ := p4
          simp only [true_and]
          have n1 : nulFree r1 := fun c hc => cstr_nulFree buffer c (scan_d_subset h1 c hc)
          obtain ⟨v2, n2⟩ := scan_s_props h2 n1
          obtain ⟨v3, _⟩ := scan_s_props h3 n2
          have i1 := scan_d_isInt32 h1
          have i4 := scan_d_isInt32 h4
          simp [validBook, v2, v3, i1, i4]

/-! ### Buffers of `fgets` -/

theorem fgetsAux_flatten (cap k : Nat) (s : List Char) : (fgetsAux cap k s).flatten = s := by
  induction s generalizing k with
  | nil => simp [fgetsAux]
  | cons c s ih =>
    unfold fgetsAux
    split_ifs with h
    · simp [ih 0]
    · have := ih (k + 1)
      cases hf : fgetsAux cap (k + 1) s with
      | nil => rw [hf] at this; simp at this; simp [this]
      | cons l ls => rw [hf] at this; simp at this; simp [this]

theorem fgetsLines_flatten (s : List Char) : (fgetsLines s).flatten = s :=
  fgetsAux_flatten _ _ s

theorem fgetsAux_line (cap k : Nat) (body rest : List Char)
    (hb : ∀ c ∈ body, c ≠ newline) (hk : k + body.length + 1 ≤ cap) :
    fgetsAux cap k (body ++ newline :: rest) = (body ++ [newline]) :: fgetsAux cap 0 rest := by
  induction body generalizing k with
  | nil => simp [fgetsAux]
  | cons a body ih =>
    have ha : a ≠ newline := hb a (List.mem_cons_self _ _)
    have hk' : ¬ cap ≤ k + 1 := by simp at hk; omega
    have := ih (k + 1) (fun c hc => hb c (List.mem_cons_of_mem _ hc))
      (by simp at hk; omega)
    rw [List.cons_append, fgetsAux]
    simp only [ha, hk', or_self, if_false, this, List.cons_append]

theorem fgetsLines_line {b : Book} (h : validBook b = true) (rest : List Char) :
    fgetsLines (fprintf_book b ++ rest) = fprintf_book b :: fgetsLines rest := by
  have hl := lineBody_length h
  have := fgetsAux_line (BUFFER_SIZE - 1) 0 (lineBody b) rest
    (fun c hc => (lineBody_char h hc).2) (by simp [BUFFER_SIZE]; omega)
  rw [fprintf_book_eq]
  simpa [fgetsLines] using this

theorem fgetsLines_encodeAll (bs : List Book) (h : ∀ b ∈ bs, validBook b = true) :
    fgetsLines (encodeAll bs) = bs.map fprintf_book := by
  induction bs with
  | nil => rfl
  | cons b bs ih =>
    have e : encodeAll (b :: bs) = fprintf_book b ++ encodeAll bs := by
      simp [encodeAll]
    rw [e, fgetsLines_line (h b (List.mem_cons_self _ _))]
    rw [ih (fun x hx => h x (List.mem_cons_of_mem _ hx))]
    rfl

/-! ### Reading a catalog whose lines all parse in full -/

theorem scan_records_full (slot : Book) (lines : List (List Char))
    (h : ∀ l ∈ lines, sscanf_book_count l = 4) :
    scan_records slot lines = lines.map decode := by
  induction lines generalizing slot with
  | nil => rfl
  | cons l ls ih =>
    simp only [scan_records, List.map_cons]
    rw [(sscanf_book_full (h l (List.mem_cons_self _ _)) slot).1]
    rw [ih _ (fun x hx => h x (List.mem_cons_of_mem _ hx))]

theorem decode_fprintf {b : Book} (h : validBook b = true) : decode (fprintf_book b) = b :=
  (sscanf_book_fprintf h _).1

theorem map_decode_fprintf (bs : List Book) (h : ∀ b ∈ bs, validBook b = true) :
    (bs.map fprintf_book).map decode = bs := by
  induction bs with
  | nil => rfl
  | cons b bs ih =>
    simp only [List.map_cons]
    rw [decode_fprintf (h b (List.mem_cons_self _ _)),
      ih (fun x hx => h x (List.mem_cons_of_mem _ hx))]

theorem scan_records_encodeAll (slot : Book) (bs : List Book)
    (h : ∀ b ∈ bs, validBook b = true) :
    scan_records slot (fgetsLines (encodeAll bs)) = bs := by
  rw [fgetsLines_encodeAll bs h, scan_records_full, map_decode_fprintf bs h]
  intro l hl
  obtain ⟨b, hb, rfl⟩ := List.mem_map.1 hl
  exact (sscanf_book_fprintf (h b hb) slot).2

/-! ### Rewrite loops -/

theorem delete_step_eq (book_id : Int) : delete_step book_id = pass_step (delete_act book_id) := by
  funext st buffer
  unfold delete_step pass_step delete_act
  by_cases h : (sscanf_book buffer st.book).id = book_id <;> simp [h]

theorem modify_step_eq (book_id : Int) (nt na : List Char) :
    modify_step book_id nt na = pass_step (modify_act book_id nt na) := by
  funext st buffer
  unfold modify_step pass_step modify_act modifyRecord
  by_cases h : (sscanf_book buffer st.book).id = book_id <;> simp [h]

theorem rent_step_eq (book_id : Int) : rent_step book_id = pass_step (rent_act book_id) := by
  funext st buffer
  unfold rent_step pass_step rent_act rentRecord
  by_cases h : (sscanf_book buffer st.book).id = book_id ∧ (sscanf_book buffer st.book).is_rented = 0
  · simp [h]
  · simp only [h, if_false, decide_False, Bool.or_false, if_true]

theorem return_step_eq (book_id : Int) : return_step book_id = pass_step (return_act book_id) := by
  funext st buffer
  unfold return_step pass_step return_act returnRecord
  by_cases h : (sscanf_book buffer st.book).id = book_id ∧ (sscanf_book buffer st.book).is_rented = 1
  · simp [h]
  · simp only [h, if_false, decide_False, Bool.or_false, if_true]

theorem pass_found_mono (act : Book → Bool × Book × Bool) (lines : List (List Char)) (st : Pass)
    (h : st.found = true) : (lines.foldl (pass_step act) st).found = true := by
  induction lines generalizing st with
  | nil => exact h
  | cons l ls ih =>
    simp only [List.foldl_cons]
    apply ih
    simp [pass_step, h]

/-- On any catalog a loop whose body leaves a non-matching record as decoded
sets `found` exactly when a record of the read-only scan matches. -/
theorem pass_found (act : Book → Bool × Book × Bool)
    (hact : ∀ b, (act b).1 = false → (act b).2.1 = b)
    (lines : List (List Char)) (st : Pass) :
    (lines.foldl (pass_step act) st).found
      = (st.found || (scan_records st.book lines).any (fun b => (act b).1)) := by
  induction lines generalizing st with
  | nil => simp [scan_records]
  | cons l ls ih =>
    simp only [List.foldl_cons, scan_records, List.any_cons]
    by_cases hh : (act (sscanf_book l st.book)).1 = true
    · rw [pass_found_mono act ls _ (by simp [pass_step, hh])]
      simp [hh]
    · have hf : (act (sscanf_book l st.book)).1 = false := by simpa using hh
      rw [ih]
      simp [pass_step, hf, hact _ hf]

/-- On a catalog whose lines all parse in full, a loop decodes every line on
its own: it matches when a decoded record matches and writes the text of each
decoded record in order. -/
theorem pass_full (act : Book → Bool × Book × Bool) (lines : List (List Char))
    (h : ∀ l ∈ lines, sscanf_book_count l = 4) (st : Pass) :
    (lines.foldl (pass_step act) st).found
        = (st.found || (lines.map decode).any (fun b => (act b).1)) ∧
      (lines.foldl (pass_step act) st).temp
        = st.temp ++ ((lines.map decode).map (written act)).flatten := by
  induction lines generalizing st with
  | nil => simp
  | cons l ls ih =>
    have hl := (sscanf_book_full (h l (List.mem_cons_self _ _)) st.book).1
    obtain ⟨i1, i2⟩ := ih (fun x hx => h x (List.mem_cons_of_mem _ hx)) (pass_step act st l)
    simp only [List.foldl_cons, List.map_cons, List.any_cons, List.flatten_cons]
    rw [i1, i2]
    constructor
    · simp [pass_step, hl, Bool.or_assoc]
    · simp only [pass_step, hl, written]
      split_ifs <;> simp

/-! ### The loop of `number_of_rented_books` -/

theorem modify_act_miss (book_id : Int) (nt na : List Char) (b : Book) :
    (modify_act book_id nt na b).1 = false → (modify_act book_id nt na b).2.1 = b := by
  intro h
  simp only [modify_act, decide_eq_false_iff_not] at h
  simp [modify_act, modifyRecord, h]

theorem rent_act_miss (book_id : Int) (b : Book) :
    (rent_act book_id b).1 = false → (rent_act book_id b).2.1 = b := by
  intro h
  simp only [rent_act, decide_eq_false_iff_not] at h
  simp only [rent_act, rentRecord, h, if_false]

theorem return_act_miss (book_id : Int) (b : Book) :
    (return_act book_id b).1 = false → (return_act book_id b).2.1 = b := by
  intro h
  simp only [return_act, decide_eq_false_iff_not] at h
  simp only [return_act, returnRecord, h, if_false]

theorem rent_found_iff (g : Book) (book_id : Int) (lines : List (List Char)) :
    (lines.foldl (rent_step book_id) (Pass.init g)).found = true
      ↔ ∃ b ∈ scan_records g lines, b.id = book_id ∧ b.is_rented = 0 := by
  rw [rent_step_eq, pass_found (rent_act book_id) (rent_act_miss book_id)]
  simp [Pass.init, rent_act]

theorem return_found_iff (g : Book) (book_id : Int) (lines : List (List Char)) :
    (lines.foldl (return_step book_id) (Pass.init g)).found = true
      ↔ ∃ b ∈ scan_records g lines, b.id = book_id ∧ b.is_rented = 1 := by
  rw [return_step_eq, pass_found (return_act book_id) (return_act_miss book_id)]
  simp [Pass.init, return_act]

theorem rent_temp_full (g : Book) (book_id : Int) (lines : List (List Char))
    (h : ∀ l ∈ lines, sscanf_book_count l = 4) :
    (lines.foldl (rent_step book_id) (Pass.init g)).temp
      = encodeAll ((scan_records g lines).map (rentRecord book_id)) := by
  rw [rent_step_eq, (pass_full (rent_act book_id) lines h (Pass.init g)).2,
    scan_records_full g lines h]
  simp [Pass.init, encodeAll, written, rent_act, Function.comp_def]

theorem return_temp_full (g : Book) (book_id : Int) (lines : List (List Char))
    (h : ∀ l ∈ lines, sscanf_book_count l = 4) :
    (lines.foldl (return_step book_id) (Pass.init g)).temp
      = encodeAll ((scan_records g lines).map (returnRecord book_id)) := by
  rw [return_step_eq, (pass_full (return_act book_id) lines h (Pass.init g)).2,
    scan_records_full g lines h]
  simp [Pass.init, encodeAll, written, return_act, Function.comp_def]

theorem validBook_rentRecord (book_id : Int) {b : Book} (h : validBook b = true) :
    validBook (rentRecord book_id b) = true := by
  unfold rentRecord
  split_ifs
  · obtain ⟨h1, h2, h3, _⟩ := validBook_iff h
    simp only [validBook, Bool.and_eq_true, decide_eq_true_eq]
    exact ⟨⟨⟨h1, h2⟩, h3⟩, by unfold isInt32; omega⟩
  · exact h

theorem validBook_returnRecord (book_id : Int) {b : Book} (h : validBook b = true) :
    validBook (returnRecord book_id b) = true := by
  unfold returnRecord
  split_ifs
  · obtain ⟨h1, h2, h3, _⟩ := validBook_iff h
    simp only [validBook, Bool.and_eq_true, decide_eq_true_eq]
    exact ⟨⟨⟨h1, h2⟩, h3⟩, by unfold isInt32; omega⟩
  · exact h

theorem rent_book_hit {g : Book} {book_id : Int} {fs : FS} {content : List Char}
    (hb : fs.books = some content)
    (hf : ((fgetsLines content).foldl (rent_step book_id) (Pass.init g)).found = true) :
    rent_book g book_id fs
      = ({ fs with
            books := some ((fgetsLines content).foldl (rent_step book_id) (Pass.init g)).temp,
            books_temp := none },
          some (sprintf_id "Book with ID " book_id " has been rented")) := by
  simp [rent_book, hb, hf]

theorem rent_book_miss {g : Book} {book_id : Int} {fs : FS} {content : List Char}
    (hb : fs.books = some content)
    (hf : ((fgetsLines content).foldl (rent_step book_id) (Pass.init g)).found = false) :
    rent_book g book_id fs
      = ({ fs with books_temp := none },
          some (sprintf_id "Book with ID " book_id " not found or already rented")) := by
  simp [rent_book, hb, hf]

theorem return_book_hit {g : Book} {junk : Int} {payload : List Char} {fs : FS}
    {content : List Char} (hb : fs.books = some content)
    (hf : ((fgetsLines content).foldl (return_step (sscanf_d payload junk))
      (Pass.init g)).found = true) :
    return_book g junk payload fs
      = ({ fs with
            books := some ((fgetsLines content).foldl (return_step (sscanf_d payload junk))
              (Pass.init g)).temp,
            books_temp := none },
          some (sprintf_id "Book with ID " (sscanf_d payload junk) " has been returned")) := by
  simp [return_book, hb, hf]

theorem return_book_miss {g : Book} {junk : Int} {payload : List Char} {fs : FS}
    {content : List Char} (hb : fs.books = some content)
    (hf : ((fgetsLines content).foldl (return_step (sscanf_d payload junk))
      (Pass.init g)).found = false) :
    return_book g junk payload fs
      = ({ fs with books_temp := none },
          some (sprintf_id "Book with ID " (sscanf_d payload junk) " not found or not rented")) := by
  simp [return_book, hb, hf]

theorem delete_written (book_id : Int) (bs : List Book) :
    (bs.map (written (delete_act book_id))).flatten
      = encodeAll (bs.filter (fun b => decide (b.id ≠ book_id))) := by
  induction bs with
  | nil => rfl
  | cons b bs ih =>
    by_cases h : b.id = book_id
    · simp [written, delete_act, h, encodeAll] at ih ⊢
      exact ih
    · simp [written, delete_act, h, encodeAll] at ih ⊢
      exact ih

theorem filter_lines (book_id : Int) (bs : List Book) (hv : ∀ b ∈ bs, validBook b = true) :
    (bs.map fprintf_book).filter (fun l => decide ((decode l).id ≠ book_id))
      = (bs.filter (fun b => decide (b.id ≠ book_id))).map fprintf_book := by
  induction bs with
  | nil => rfl
  | cons b bs ih =>
    have hd := decode_fprintf (hv b (List.mem_cons_self _ _))
    have := ih (fun x hx => hv x (List.mem_cons_of_mem _ hx))
    by_cases h : b.id = book_id
    · simp only [List.map_cons, List.filter_cons, hd, h, ne_eq, not_true_eq_false,
        decide_False, Bool.false_eq_true, if_false]
      exact this
    · simp only [List.map_cons, List.filter_cons, hd, h, ne_eq, not_false_eq_true,
        decide_True, if_true]
      rw [this]

theorem lines_full_of_valid (bs : List Book) (hv : ∀ b ∈ bs, validBook b = true) :
    ∀ l ∈ fgetsLines (encodeAll bs), sscanf_book_count l = 4 := by
  rw [fgetsLines_encodeAll bs hv]
  intro l hl
  obtain ⟨b, hb, rfl⟩ := List.mem_map.1 hl
  exact (sscanf_book_fprintf (hv b hb) zeroBook).2

theorem delete_loop_valid (g : Book) (book_id : Int) (bs : List Book)
    (hv : ∀ b ∈ bs, validBook b = true) :
    ((fgetsLines (encodeAll bs)).foldl (delete_step book_id) (Pass.init g)).found
        = bs.any (fun b => decide (b.id = book_id)) ∧
    ((fgetsLines (encodeAll bs)).foldl (delete_step book_id) (Pass.init g)).temp
        = encodeAll (bs.filter (fun b => decide (b.id ≠ book_id))) := by
  have hfull := lines_full_of_valid bs hv
  obtain ⟨h1, h2⟩ := pass_full (delete_act book_id) _ hfull (Pass.init g)
  rw [fgetsLines_encodeAll bs hv, map_decode_fprintf bs hv] at h1 h2
  rw [delete_step_eq, fgetsLines_encodeAll bs hv, h1, h2, delete_written]
  simp [Pass.init, delete_act]

/-- C4.  On a catalog made of well-formed lines in which some line carries the
id, `delete_book` answers "has been deleted", and it and `delete_book_wrapper`
leave a catalog whose lines are exactly the lines of the old catalog whose id
differs from the target, unchanged and in their order; no record with the
target id is read from the new catalog. -/
theorem delete_well_formed (g : Book) (junk : Int) (payload : List Char) (book_id : Int)
    (fs : FS) (bs : List Book) (hb : fs.books = some (encodeAll bs))
    (hv : ∀ b ∈ bs, validBook b = true) (hp : sscanf_d payload junk = book_id)
    (hc : ∃ b ∈ bs, b.id = book_id) :
    (delete_book g junk payload fs).2
        = some (sprintf_id "Book with ID " book_id " has been deleted") ∧
    (delete_book g junk payload fs).1.books
        = some (encodeAll (bs.filter (fun b => decide (b.id ≠ book_id)))) ∧
    (delete_book_wrapper g book_id fs).books
        = some (encodeAll (bs.filter (fun b => decide (b.id ≠ book_id)))) ∧
    fgetsLines (encodeAll (bs.filter (fun b => decide (b.id ≠ book_id))))
        = (fgetsLines (encodeAll bs)).filter (fun l => decide ((decode l).id ≠ book_id)) ∧
    (∀ g', ∀ b ∈ scan_records g'
        (fgetsLines (encodeAll (bs.filter (fun b => decide (b.id ≠ book_id))))),
      b.id ≠ book_id) := by
  subst hp
  obtain ⟨h1, h2⟩ := delete_loop_valid g (sscanf_d payload junk) bs hv
  have hany : bs.any (fun b => decide (b.id = sscanf_d payload junk)) = true := by
    obtain ⟨b, hbm, hbe⟩ := hc
    exact List.any_eq_true.2 ⟨b, hbm, by simpa using hbe⟩
  rw [hany] at h1
  have hvf : ∀ b ∈ bs.filter (fun b => decide (b.id ≠ sscanf_d payload junk)),
      validBook b = true := fun b hb' => hv b (List.mem_of_mem_filter hb')
  refine ⟨?_, ?_, ?_, ?_, ?_⟩
  · simp [delete_book, hb, h1]
  · simp [delete_book, hb, h1, h2]
  · simp [delete_book_wrapper, hb, h1, h2]
  · rw [fgetsLines_encodeAll _ hvf, fgetsLines_encodeAll bs hv, filter_lines _ bs hv]
  · intro g' b hb'
    rw [scan_records_encodeAll g' _ hvf] at hb'
    simpa using (List.mem_filter.1 hb').2

/-- Witness for C4: deleting 2 from `1 A1 B1 0`, `2 A2 B2 0` leaves exactly the
line `1 A1 B1 0`. -/
theorem delete_well_formed_witness :
    (booksOnly "1 A1 B1 0\n2 A2 B2 0\n").books
        = some (encodeAll [⟨1, "A1".toList, "B1".toList, 0⟩, ⟨2, "A2".toList, "B2".toList, 0⟩]) ∧
    (delete_book zeroBook 0 "2".toList (booksOnly "1 A1 B1 0\n2 A2 B2 0\n")).2
        = some "Book with ID 2 has been deleted".toList ∧
    (delete_book_wrapper zeroBook 2 (booksOnly "1 A1 B1 0\n2 A2 B2 0\n")).books
        = some "1 A1 B1 0\n".toList :=
  have h := delete_well_formed zeroBook 0 "2".toList 2 (booksOnly "1 A1 B1 0\n2 A2 B2 0\n")
    [⟨1, "A1".toList, "B1".toList, 0⟩, ⟨2, "A2".toList, "B2".toList, 0⟩]
    (by decide) (by decide) (by decide) (by decide)
  ⟨by decide, h.1, h.2.2.1⟩

/-! ### The id allocator -/

theorem get_next_id_loop_le (m : Int) (lines : List (List Char)) (st : Int × Int)
    (h : ∀ l ∈ lines, ∃ v r, scan_d (cstr l) = some (v, r) ∧ v ≤ m) (hs : st.2 ≤ m) :
    (lines.foldl get_next_id_step st).2 ≤ m := by
  induction lines generalizing st with
  | nil => exact hs
  | cons l ls ih =>
    obtain ⟨v, r, hv, hle⟩ := h l (List.mem_cons_self _ _)
    simp only [List.foldl_cons]
    apply ih _ (fun x hx => h x (List.mem_cons_of_mem _ hx))
    simp only [get_next_id_step, sscanf_d, hv]
    split_ifs
    · simpa using hle
    · simpa using hs

theorem get_next_id_loop_ge (lines : List (List Char)) (st : Int × Int) :
    st.2 ≤ (lines.foldl get_next_id_step st).2 := by
  induction lines generalizing st with
  | nil => exact le_refl _
  | cons l ls ih =>
    simp only [List.foldl_cons]
    refine le_trans ?_ (ih _)
    simp only [get_next_id_step]
    split_ifs with hc
    · exact le_of_lt hc
    · exact le_refl _

theorem sscanf_book_agree (buffer : List Char) (s1 s2 : Book) (h1 : s1.id = s2.id)
    (h2 : s1.is_rented = s2.is_rented) :
    (sscanf_book buffer s1).id = (sscanf_book buffer s2).id ∧
      (sscanf_book buffer s1).is_rented = (sscanf_book buffer s2).is_rented := by
  unfold sscanf_book
  cases scan_d (cstr buffer) with
  | none => exact ⟨h1, h2⟩
  | some p1 =>
    simp only
    cases scan_s 49 p1.2 with
    | none => exact ⟨rfl, h2⟩
    | some p2 =>
      simp only
      cases scan_s 49 p2.2 with
      | none => exact ⟨rfl, h2⟩
      | some p3 =>
        simp only
        cases scan_d p3.2 with
        | none => exact ⟨rfl, h2⟩
        | some p4 => exact ⟨rfl, rfl⟩

theorem modify_loop (book_id : Int) (nt na : List Char) (lines : List (List Char)) (st : Pass) :
    (lines.foldl (modify_step book_id nt na) st).temp
        = st.temp ++ (modify_written book_id nt na st.book lines).flatten ∧
    (lines.foldl (modify_step book_id nt na) st).found
        = (st.found || (scan_records st.book lines).any (fun b => decide (b.id = book_id))) := by
  constructor
  · induction lines generalizing st with
    | nil => simp [modify_written]
    | cons l ls ih =>
      simp only [List.foldl_cons, modify_written, List.flatten_cons]
      rw [ih]
      simp [modify_step_eq, pass_step, modify_act]
  · rw [modify_step_eq, pass_found _ (modify_act_miss book_id nt na)]
    simp [modify_act]

theorem modify_written_length (book_id : Int) (nt na : List Char) (lines : List (List Char))
    (slot : Book) : (modify_written book_id nt na slot lines).length = lines.length := by
  induction lines generalizing slot with
  | nil => rfl
  | cons l ls ih => simp [modify_written, ih]

theorem modify_written_match (book_id : Int) (nt na : List Char) (lines : List (List Char))
    (s1 s2 : Book) (h1 : s1.id = s2.id) (h2 : s1.is_rented = s2.is_rented) (k : Nat) (b : Book)
    (hk : (scan_records s2 lines)[k]? = some b) (hb : b.id = book_id) :
    (modify_written book_id nt na s1 lines)[k]?
      = some (fprintf_book ⟨book_id, nt, na, b.is_rented⟩) := by
  induction lines generalizing s1 s2 k with
  | nil => simp [scan_records] at hk
  | cons l ls ih =>
    obtain ⟨a1, a2⟩ := sscanf_book_agree l s1 s2 h1 h2
    cases k with
    | zero =>
      simp only [scan_records, List.getElem?_cons_zero, Option.some.injEq] at hk
      subst hk
      simp only [modify_written, List.getElem?_cons_zero, Option.some.injEq]
      rw [modifyRecord, if_pos (a1.trans hb), a2]
    | succ k =>
      simp only [scan_records, List.getElem?_cons_succ] at hk
      simp only [modify_written, List.getElem?_cons_succ]
      apply ih _ _ _ _ k hk
      · rw [← a1]; unfold modifyRecord; split_ifs with hc
        · exact hc.symm
        · rfl
      · rw [← a2]; unfold modifyRecord; split_ifs <;> rfl

theorem modify_written_pass (book_id : Int) (nt na : List Char) (lines : List (List Char))
    (slot : Book) (k : Nat) (b : Book) (hk : lines[k]? = some (fprintf_book b))
    (hv : validBook b = true) (hb : b.id ≠ book_id) :
    (modify_written book_id nt na slot lines)[k]? = some (fprintf_book b) := by
  induction lines generalizing slot k with
  | nil => simp at hk
  | cons l ls ih =>
    cases k with
    | zero =>
      simp only [List.getElem?_cons_zero, Option.some.injEq] at hk
      subst hk
      simp only [modify_written, List.getElem?_cons_zero, Option.some.injEq]
      rw [(sscanf_book_fprintf hv slot).1, modifyRecord, if_neg hb]
    | succ k =>
      simp only [List.getElem?_cons_succ] at hk
      simp only [modify_written, List.getElem?_cons_succ]
      exact ih _ k hk

theorem scan_s_tok (w : Nat) (t rest : List Char) (ht : validTok t = true) (hw : t.length ≤ w)
    (hr : spaceHead rest) : scan_s w (t ++ rest) = some (t, rest) := by
  have hm := validTok_mem ht
  cases t with
  | nil => exact absurd rfl (validTok_ne_nil ht)
  | cons a t =>
    have ha : isspace a = false := (hm a (List.mem_cons_self _ _)).1
    have hs : skipSpace (a :: t ++ rest) = a :: (t ++ rest) := by simp [skipSpace, ha]
    unfold scan_s
    rw [hs]
    have := takeToken_append w (a :: t) rest (fun c hc => (hm c hc).1) hw hr
    simpa using this

theorem scan_s_space (w : Nat) (s : List Char) : scan_s w (' ' :: s) = scan_s w s := by
  have : skipSpace (' ' :: s) = skipSpace s := by
    have : isspace ' ' = true := by decide
    simp [skipSpace, this]
  unfold scan_s
  rw [this]

theorem sscanf_title_author_payload (title author : List Char) (new_book : Book)
    (ht : validTok title = true) (ha : validTok author = true) :
    sscanf_title_author (modify_payload title author) new_book
      = some { new_book with title := title, author := author } := by
  have hn : nulFree (modify_payload title author) := by
    intro c hc
    simp only [modify_payload, List.mem_append, List.mem_cons] at hc
    rcases hc with hc | rfl | hc
    · exact (validTok_mem ht c hc).2
    · decide
    · exact (validTok_mem ha c hc).2
  have hsp : spaceHead (' ' :: author) := by
    intro c s e
    simp only [List.cons.injEq] at e
    rw [← e.1]; decide
  have hnil : spaceHead ([] : List Char) := by
    intro c s e; simp at e
  have hlen : (modify_payload title author).length = title.length + author.length + 1 := by
    simp [modify_payload]; omega
  have e1 := scan_s_tok (modify_payload title author).length title (' ' :: author) ht
    (by omega) hsp
  have e2 : scan_s (modify_payload title author).length (' ' :: author) = some (author, []) := by
    rw [scan_s_space]
    have := scan_s_tok (modify_payload title author).length author [] ha (by omega) hnil
    simpa using this
  have e1' : scan_s (modify_payload title author).length (modify_payload title author)
      = some (title, ' ' :: author) := e1
  have h49t := validTok_length ht
  have h49a := validTok_length ha
  unfold sscanf_title_author
  rw [cstr_of_nulFree hn, e1']
  simp only [e2]
  rw [if_neg (by omega), if_neg (by omega)]

theorem modify_book_eq {g new_book nb : Book} {book_id : Int} {payload : List Char} {fs : FS}
    {content : List Char} (hb : fs.books = some content)
    (hp : sscanf_title_author payload new_book = some nb) :
    modify_book g new_book book_id payload fs
      = if (scan_records g (fgetsLines content)).any (fun b => decide (b.id = book_id)) = true then
          some ({ fs with
              books := some (modify_written book_id nb.title nb.author g
                (fgetsLines content)).flatten,
              books_temp := none },
            some (sprintf_id "Book with ID " book_id " has been modified"))
        else
          some ({ fs with books_temp := none },
            some (sprintf_id "Book with ID " book_id " not found")) := by
  obtain ⟨h1, h2⟩ := modify_loop book_id nb.title nb.author (fgetsLines content) (Pass.init g)
  simp only [modify_book, hb, hp, h1, h2]
  simp [Pass.init]

theorem validBook_modifyRecord (book_id : Int) (nt na : List Char) {b : Book}
    (h : validBook b = true) (ht : validTok nt = true) (ha : validTok na = true) :
    validBook (modifyRecord book_id nt na b) = true := by
  unfold modifyRecord
  split_ifs with hc
  · obtain ⟨h1, _, _, h4⟩ := validBook_iff h
    simp only [validBook, Bool.and_eq_true, decide_eq_true_eq]
    exact ⟨⟨⟨hc ▸ h1, ht⟩, ha⟩, h4⟩
  · exact h

theorem modify_written_valid (book_id : Int) (nt na : List Char) (bs : List Book)
    (hv : ∀ b ∈ bs, validBook b = true) (slot : Book) :
    modify_written book_id nt na slot (bs.map fprintf_book)
      = (bs.map (modifyRecord book_id nt na)).map fprintf_book := by
  induction bs generalizing slot with
  | nil => rfl
  | cons b bs ih =>
    simp only [List.map_cons, modify_written]
    rw [(sscanf_book_fprintf (hv b (List.mem_cons_self _ _)) slot).1,
      ih (fun x hx => hv x (List.mem_cons_of_mem _ hx))]

/-- C5 (as amended).  For every catalog, every id that some record read from it
carries, and every new title and author that are non-empty, free of white
space and at most 49 bytes long, `modify_book` given the payload
`<title> <author>` answers "has been modified" and writes one line per line
read; the line written for a record with that id is
`<id> <title> <author> <is_rented>` with the `is_rented` that record had before
the call, whatever that value is, and reading the line back gives that id,
that `is_rented` and the new title and author. -/
theorem modify_keeps_is_rented (g new_book : Book) (book_id : Int) (title author : List Char)
    (fs : FS) (content : List Char) (hb : fs.books = some content)
    (ht : validTok title = true) (ha : validTok author = true)
    (hc : ∃ b ∈ scan_records g (fgetsLines content), b.id = book_id) :
    ∃ outs : List (List Char),
      modify_book g new_book book_id (modify_payload title author) fs
        = some ({ fs with books := some outs.flatten, books_temp := none },
            some (sprintf_id "Book with ID " book_id " has been modified")) ∧
      outs.length = (fgetsLines content).length ∧
      (∀ (k : Nat) (b : Book), (scan_records g (fgetsLines content))[k]? = some b → b.id = book_id →
        outs[k]? = some (fprintf_book ⟨book_id, title, author, b.is_rented⟩)) ∧
      (∀ r slot, isInt32 book_id → isInt32 r →
        sscanf_book (fprintf_book ⟨book_id, title, author, r⟩) slot
          = ⟨book_id, title, author, r⟩) := by
  have hp := sscanf_title_author_payload title author new_book ht ha
  refine ⟨modify_written book_id title author g (fgetsLines content), ?_, ?_, ?_, ?_⟩
  · rw [modify_book_eq hb hp]
    have hany : (scan_records g (fgetsLines content)).any (fun b => decide (b.id = book_id))
        = true := by
      obtain ⟨b, hbm, hbe⟩ := hc
      exact List.any_eq_true.2 ⟨b, hbm, by simpa using hbe⟩
    rw [if_pos hany]
  · exact modify_written_length _ _ _ _ _
  · intro k b hk hbid
    exact modify_written_match book_id title author _ g g rfl rfl k b hk hbid
  · intro r slot h1 h2
    apply (sscanf_book_fprintf _ slot).1
    simp only [validBook, Bool.and_eq_true, decide_eq_true_eq]
    exact ⟨⟨⟨h1, ht⟩, ha⟩, h2⟩

/-- Witness for C5: the scenario of `test_kill_sdl_mutant` on `modify_book`.
A book is added (id 1) and rented; `modify(1, NewTitle, NewAuthor)` then
leaves the line `1 NewTitle NewAuthor 1`. -/
theorem modify_keeps_is_rented_witness :
    (rent_book_wrapper zeroBook 1
        (add_book_wrapper 0 [] [] "TestTitle".toList "TestAuthor".toList noFiles)).books
      = some "1 TestTitle TestAuthor 1\n".toList ∧
    (modify_book zeroBook zeroBook 1 (modify_payload "NewTitle".toList "NewAuthor".toList)
        (booksOnly "1 TestTitle TestAuthor 1\n")).map (fun r => r.1.books)
      = some (some "1 NewTitle NewAuthor 1\n".toList) ∧
    ∃ outs : List (List Char),
      modify_book zeroBook zeroBook 1 (modify_payload "NewTitle".toList "NewAuthor".toList)
          (booksOnly "1 TestTitle TestAuthor 1\n")
        = some ({ booksOnly "1 TestTitle TestAuthor 1\n" with
              books := some outs.flatten, books_temp := none },
            some (sprintf_id "Book with ID " 1 " has been modified")) ∧
      outs.length = (fgetsLines "1 TestTitle TestAuthor 1\n".toList).length ∧
      (∀ (k : Nat) (b : Book), (scan_records zeroBook (fgetsLines "1 TestTitle TestAuthor 1\n".toList))[k]?
          = some b → b.id = 1 →
        outs[k]? = some (fprintf_book ⟨1, "NewTitle".toList, "NewAuthor".toList, b.is_rented⟩)) ∧
      (∀ r slot, isInt32 1 → isInt32 r →
        sscanf_book (fprintf_book ⟨1, "NewTitle".toList, "NewAuthor".toList, r⟩) slot
          = ⟨1, "NewTitle".toList, "NewAuthor".toList, r⟩) :=
  ⟨by decide, by decide,
    modify_keeps_is_rented zeroBook zeroBook 1 "NewTitle".toList "NewAuthor".toList
      (booksOnly "1 TestTitle TestAuthor 1\n") "1 TestTitle TestAuthor 1\n".toList rfl
      (by decide) (by decide) (by decide)⟩

/-- Counterexample to C5 as stated.  With the new title `A B` (which holds a
blank) and the new author `C`, `modify(1, ...)` on the catalog `1 T A 0` leaves
the line `1 A B 0`: the record's title is `A` and its author is `B`, not the
new title and author. -/
theorem modify_title_with_blank :
    (modify_book zeroBook zeroBook 1 (modify_payload "A B".toList "C".toList)
        (booksOnly "1 T A 0\n")).map (fun r => r.1.books)
      = some (some "1 A B 0\n".toList) ∧
    scan_records zeroBook (fgetsLines "1 A B 0\n".toList)
      = [⟨1, "A".toList, "B".toList, 0⟩] ∧
    scan_records zeroBook (fgetsLines "1 A B 0\n".toList)
      ≠ [⟨1, "A B".toList, "C".toList, 0⟩] := by
  decide

/-- C10 (as amended).  For every catalog and every `modify_book` call, the loop
writes one line per line read, and every line that is the well-formed text
`<id> <title> <author> <is_rented>` of a record whose id differs from the
target is written back with the same text at the same position; these lines
form the new `books.txt` when some record carries the target id, and
`books.txt` is left as it is otherwise.  In a catalog made of well-formed lines
only, with a well-formed new title and author, the lines written are the lines
of the new catalog. -/
theorem modify_passes_well_formed_lines (g new_book nb : Book) (book_id : Int)
    (payload : List Char) (fs : FS) (content : List Char) (hb : fs.books = some content)
    (hp : sscanf_title_author payload new_book = some nb) :
    ∃ outs : List (List Char),
      outs.length = (fgetsLines content).length ∧
      (∀ (k : Nat) (b : Book), (fgetsLines content)[k]? = some (fprintf_book b) → validBook b = true →
        b.id ≠ book_id → outs[k]? = some (fprintf_book b)) ∧
      ((∃ b ∈ scan_records g (fgetsLines content), b.id = book_id) →
        modify_book g new_book book_id payload fs
          = some ({ fs with books := some outs.flatten, books_temp := none },
              some (sprintf_id "Book with ID " book_id " has been modified"))) ∧
      ((¬ ∃ b ∈ scan_records g (fgetsLines content), b.id = book_id) →
        modify_book g new_book book_id payload fs
          = some ({ fs with books_temp := none },
              some (sprintf_id "Book with ID " book_id " not found"))) ∧
      (∀ bs, content = encodeAll bs → (∀ b ∈ bs, validBook b = true) →
        validTok nb.title = true → validTok nb.author = true →
        fgetsLines outs.flatten = outs) := by
  refine ⟨modify_written book_id nb.title nb.author g (fgetsLines content),
    modify_written_length _ _ _ _ _, ?_, ?_, ?_, ?_⟩
  · intro k b hk hv hne
    exact modify_written_pass book_id nb.title nb.author _ g k b hk hv hne
  · intro hc
    rw [modify_book_eq hb hp]
    have hany : (scan_records g (fgetsLines content)).any (fun b => decide (b.id = book_id))
        = true := by
      obtain ⟨b, hbm, hbe⟩ := hc
      exact List.any_eq_true.2 ⟨b, hbm, by simpa using hbe⟩
    rw [if_pos hany]
  · intro hc
    rw [modify_book_eq hb hp]
    have hany : ¬ (scan_records g (fgetsLines content)).any
        (fun b => decide (b.id = book_id)) = true := by
      intro h
      obtain ⟨b, hbm, hbe⟩ := List.any_eq_true.1 h
      exact hc ⟨b, hbm, by simpa using hbe⟩
    rw [if_neg hany]
  · intro bs hbs hv ht ha
    subst hbs
    rw [fgetsLines_encodeAll bs hv, modify_written_valid _ _ _ bs hv]
    have := fgetsLines_encodeAll (bs.map (modifyRecord book_id nb.title nb.author))
      (by
        intro b hb'
        obtain ⟨b0, hb0, rfl⟩ := List.mem_map.1 hb'
        exact validBook_modifyRecord _ _ _ (hv b0 hb0) ht ha)
    exact this

/-- Witness for C10: `modify(1, X, Y)` on the catalog `1 A B 0`, `2 C D 1`. -/
theorem modify_passes_well_formed_lines_witness :
    (booksOnly "1 A B 0\n2 C D 1\n").books = some "1 A B 0\n2 C D 1\n".toList ∧
    sscanf_title_author "X Y".toList zeroBook = some ⟨0, "X".toList, "Y".toList, 0⟩ ∧
    (modify_book zeroBook zeroBook 1 "X Y".toList (booksOnly "1 A B 0\n2 C D 1\n")).map
        (fun r => r.1.books)
      = some (some "1 X Y 0\n2 C D 1\n".toList) ∧
    ∃ outs : List (List Char),
      outs.length = (fgetsLines "1 A B 0\n2 C D 1\n".toList).length ∧
      (∀ (k : Nat) (b : Book), (fgetsLines "1 A B 0\n2 C D 1\n".toList)[k]? = some (fprintf_book b) →
        validBook b = true → b.id ≠ 1 → outs[k]? = some (fprintf_book b)) :=
  ⟨rfl, by decide, by decide,
    (modify_passes_well_formed_lines zeroBook zeroBook ⟨0, "X".toList, "Y".toList, 0⟩ 1
      "X Y".toList (booksOnly "1 A B 0\n2 C D 1\n") "1 A B 0\n2 C D 1\n".toList rfl
      (by decide)).imp (fun _ h => ⟨h.1, h.2.1⟩)⟩

/-- Counterexample to C10 as stated.  On the catalog `1 A B 0`,
`2 Corrupted-Author 0` the call `modify(1, X, Y)` rewrites the second line,
whose id 2 differs from the target, to `2 Corrupted-Author 0 0`: its old text
is not a line of the resulting catalog. -/
theorem modify_rewrites_partial_line :
    (fgetsLines "1 A B 0\n2 Corrupted-Author 0\n".toList)[1]?
      = some "2 Corrupted-Author 0\n".toList ∧
    (scan_records zeroBook (fgetsLines "1 A B 0\n2 Corrupted-Author 0\n".toList)).map
        (fun b => b.id) = [1, 2] ∧
    (modify_book zeroBook zeroBook 1 "X Y".toList
        (booksOnly "1 A B 0\n2 Corrupted-Author 0\n")).map (fun r => r.1.books)
      = some (some "1 X Y 0\n2 Corrupted-Author 0 0\n".toList) ∧
    (fgetsLines "1 X Y 0\n2 Corrupted-Author 0 0\n".toList)[1]?
      = some "2 Corrupted-Author 0 0\n".toList ∧
    "2 Corrupted-Author 0\n".toList ∉ fgetsLines "1 X Y 0\n2 Corrupted-Author 0 0\n".toList := by
  decide

/-! ### Sequences of `rent` and `return` -/

/-- After a successful `rent` on a catalog whose lines all parse in full, the
catalog is the text of the rented records. -/
theorem rent_book_full {g : Book} {book_id : Int} {fs : FS} {content : List Char}
    (hb : fs.books = some content) (hfull : ∀ l ∈ fgetsLines content, sscanf_book_count l = 4)
    (hy : ∃ b ∈ scan_records g (fgetsLines content), b.id = book_id ∧ b.is_rented = 0) :
    (rent_book g book_id fs).1.books
      = some (encodeAll ((scan_records g (fgetsLines content)).map (rentRecord book_id))) := by
  rw [rent_book_hit hb ((rent_found_iff g book_id _).2 hy)]
  simp [rent_temp_full g book_id _ hfull]

theorem rent_book_none {g : Book} {book_id : Int} {fs : FS} {content : List Char}
    (hb : fs.books = some content)
    (hn : ¬ ∃ b ∈ scan_records g (fgetsLines content), b.id = book_id ∧ b.is_rented = 0) :
    rent_book g book_id fs
      = ({ fs with books_temp := none },
          some (sprintf_id "Book with ID " book_id " not found or already rented")) := by
  apply rent_book_miss hb
  have := (rent_found_iff g book_id (fgetsLines content)).not.2 hn
  simpa using this

theorem return_book_full {g : Book} {junk : Int} {payload : List Char} {fs : FS}
    {content : List Char} (hb : fs.books = some content)
    (hfull : ∀ l ∈ fgetsLines content, sscanf_book_count l = 4)
    (hy : ∃ b ∈ scan_records g (fgetsLines content),
      b.id = sscanf_d payload junk ∧ b.is_rented = 1) :
    (return_book g junk payload fs).1.books
      = some (encodeAll ((scan_records g (fgetsLines content)).map
          (returnRecord (sscanf_d payload junk)))) := by
  rw [return_book_hit hb ((return_found_iff g _ _).2 hy)]
  simp [return_temp_full g _ _ hfull]

theorem return_book_none {g : Book} {junk : Int} {payload : List Char} {fs : FS}
    {content : List Char} (hb : fs.books = some content)
    (hn : ¬ ∃ b ∈ scan_records g (fgetsLines content),
      b.id = sscanf_d payload junk ∧ b.is_rented = 1) :
    return_book g junk payload fs
      = ({ fs with books_temp := none },
          some (sprintf_id "Book with ID " (sscanf_d payload junk) " not found or not rented")) := by
  apply return_book_miss hb
  have := (return_found_iff g (sscanf_d payload junk) (fgetsLines content)).not.2 hn
  simpa using this

theorem fgetsAux_cons_ne_nil (cap k : Nat) (c : Char) (s : List Char) :
    fgetsAux cap k (c :: s) ≠ [] := by
  unfold fgetsAux
  split_ifs
  · simp
  · cases fgetsAux cap (k + 1) s <;> simp

theorem fgetsAux_append (cap k : Nat) (pre x : List Char) :
    fgetsAux cap k (pre ++ newline :: x)
      = fgetsAux cap k (pre ++ [newline]) ++ fgetsAux cap 0 x := by
  induction pre generalizing k with
  | nil => simp [fgetsAux]
  | cons a pre ih =>
    rw [List.cons_append, List.cons_append, fgetsAux, fgetsAux]
    split_ifs with h
    · rw [ih 0]; rfl
    · rw [ih (k + 1)]
      cases hA : fgetsAux cap (k + 1) (pre ++ [newline]) with
      | nil =>
        exfalso
        cases pre with
        | nil => exact fgetsAux_cons_ne_nil cap (k + 1) newline [] hA
        | cons b pre => exact fgetsAux_cons_ne_nil cap (k + 1) b (pre ++ [newline]) hA
      | cons l ls => rfl

theorem fgetsLines_append_line (content : List Char) {b : Book} (hv : validBook b = true)
    (hc : content = [] ∨ ∃ pre, content = pre ++ [newline]) :
    fgetsLines (content ++ fprintf_book b) = fgetsLines content ++ [fprintf_book b] := by
  have hl : fgetsLines (fprintf_book b) = [fprintf_book b] := by
    have := fgetsLines_line hv []
    simpa [fgetsLines, fgetsAux] using this
  rcases hc with rfl | ⟨pre, rfl⟩
  · simpa [fgetsLines, fgetsAux] using hl
  · have := fgetsAux_append (BUFFER_SIZE - 1) 0 pre (fprintf_book b)
    simp only [fgetsLines] at hl ⊢
    rw [List.append_assoc, List.singleton_append, this, hl]

theorem get_next_id_getD (junk : Int) (file : Option (List Char)) :
    get_next_id junk (some (file.getD [])) = get_next_id junk file := by
  cases file with
  | none => rfl
  | some c => rfl

theorem get_next_id_isInt32 (junk : Int) (file : Option (List Char)) :
    isInt32 (get_next_id junk file) := by
  cases file with
  | none => simp [get_next_id, isInt32]
  | some c => exact toInt32_isInt32 _

/-- On a catalog that is absent, empty or ends with a newline, with a title
and an author that are non-empty, free of white space and at most 48 bytes
long, `add_book_wrapper` and `add_book` append the one line
`<n> <title> <author> 0`, where `n` is `get_next_id` of the catalog before the
call; the lines read before stay as they were, and `add_book` reports `n`. -/
theorem add_book_appends (junk : Int) (spill_title spill_author title author : List Char)
    (fs : FS) (ht : validTok title = true) (ha : validTok author = true)
    (h1 : title.length ≤ 48) (h2 : author.length ≤ 48)
    (hc : fs.books.getD [] = [] ∨ ∃ pre, fs.books.getD [] = pre ++ [newline]) :
    (add_book_wrapper junk spill_title spill_author title author fs).books
        = some (fs.books.getD [] ++ fprintf_book ⟨get_next_id junk fs.books, title, author, 0⟩) ∧
    add_book junk title author fs
        = ({ fs with books := some (fs.books.getD [] ++
              fprintf_book ⟨get_next_id junk fs.books, title, author, 0⟩) },
            some (sprintf_id "Book added with ID: " (get_next_id junk fs.books) "")) ∧
    fgetsLines (fs.books.getD [] ++ fprintf_book ⟨get_next_id junk fs.books, title, author, 0⟩)
        = fgetsLines (fs.books.getD []) ++
            [fprintf_book ⟨get_next_id junk fs.books, title, author, 0⟩] := by
  have e1 : strncpy49 title spill_title = title := by
    unfold strncpy49; rw [if_pos (by omega)]
  have e2 : strncpy49 author spill_author = author := by
    unfold strncpy49; rw [if_pos (by omega)]
  have hv : validBook ⟨get_next_id junk fs.books, title, author, 0⟩ = true := by
    simp only [validBook, Bool.and_eq_true, decide_eq_true_eq]
    exact ⟨⟨⟨get_next_id_isInt32 _ _, ht⟩, ha⟩, by unfold isInt32; omega⟩
  refine ⟨?_, ?_, fgetsLines_append_line _ hv hc⟩
  · simp only [add_book_wrapper, e1, e2, get_next_id_getD]
  · simp only [add_book, get_next_id_getD]

/-- C6, evaluated at the failing input.  `add_book_wrapper` is called with a
title of 49 bytes and the author `A` while `books.txt` is absent.
`strncpy(book.title, title, 49)` copies the 49 bytes and writes no terminator,
so `%s` reads on from `book.title[49]`, a byte of the uninitialised `book`; when
it holds `X`, the output goes on with that byte and with the author array that
follows the title array, and the line written is `1 <title>XA A 0` instead of
`1 <title> A 0`.  Only when the byte happens to be NUL is the claimed line
written. -/
theorem add_book_wrapper_title_49 :
    (List.replicate 49 'a').length = 49 ∧
    validTok (List.replicate 49 'a') = true ∧
    (add_book_wrapper 0 "XA".toList [] (List.replicate 49 'a') "A".toList noFiles).books
        = some ("1 ".toList ++ (List.replicate 49 'a' ++ "XA A 0\n".toList)) ∧
    (add_book_wrapper 0 "XA".toList [] (List.replicate 49 'a') "A".toList noFiles).books
        ≠ some (fprintf_book ⟨1, List.replicate 49 'a', "A".toList, 0⟩) ∧
    (add_book_wrapper 0 [] [] (List.replicate 49 'a') "A".toList noFiles).books
        = some (fprintf_book ⟨1, List.replicate 49 'a', "A".toList, 0⟩) := by
  decide

/-- The concrete scenario of the spec for `add`: on an empty catalog,
`add("T", "A")` allocates id 1 and the catalog then holds exactly the line
`1 T A 0`; the same holds when `books.txt` is absent. -/
theorem add_book_on_empty_catalog :
    add_book 0 "T".toList "A".toList (booksOnly "")
        = (booksOnly "1 T A 0\n", some "Book added with ID: 1".toList) ∧
    add_book_wrapper 0 [] [] "T".toList "A".toList (booksOnly "") = booksOnly "1 T A 0\n" ∧
    add_book_wrapper 0 [] [] "T".toList "A".toList noFiles = booksOnly "1 T A 0\n" := by
  decide

/-! ### `search` -/

/-- C17.  When `books.txt` cannot be opened (it does not exist), each of
`delete_book`, `modify_book`, `search_book`, `rent_book` and `return_book`
returns at once: no response is written and the file system, temporary files
included, is exactly as it was (no file is created).  The wrappers that check
the result of `open` behave the same. -/
theorem storage_unavailable (g new_book : Book) (junk book_id : Int) (payload : List Char)
    (fs : FS) (hb : fs.books = none) :
    delete_book g junk payload fs = (fs, none) ∧
    modify_book g new_book book_id payload fs = some (fs, none) ∧
    search_book g junk payload fs = (fs, none) ∧
    rent_book g book_id fs = (fs, none) ∧
    return_book g junk payload fs = (fs, none) ∧
    delete_book_wrapper g book_id fs = fs ∧
    rent_book_wrapper g book_id fs = fs ∧
    return_book_wrapper g book_id fs = fs := by
  simp [delete_book, modify_book, search_book, rent_book, return_book, delete_book_wrapper,
    rent_book_wrapper, return_book_wrapper, hb]

/-- Witness for C17: the five operations on a file system without files. -/
theorem storage_unavailable_witness :
    noFiles.books = none ∧
    delete_book zeroBook 0 "1".toList noFiles = (noFiles, none) ∧
    modify_book zeroBook zeroBook 1 "T A".toList noFiles = some (noFiles, none) ∧
    search_book zeroBook 0 "1".toList noFiles = (noFiles, none) ∧
    rent_book zeroBook 1 noFiles = (noFiles, none) ∧
    return_book zeroBook 0 "1".toList noFiles = (noFiles, none) :=
  have h := storage_unavailable zeroBook zeroBook 0 1 "1".toList noFiles rfl
  ⟨rfl, h.1, by decide, h.2.2.1, h.2.2.2.1, h.2.2.2.2.1⟩

/-! ### The invariant of unique ids -/

theorem scan_d_fprintf_book {b : Book} (h : validBook b = true) :
    ∃ r, scan_d (cstr (fprintf_book b)) = some (b.id, r) := by
  obtain ⟨hi, _, _, _⟩ := validBook_iff h
  have hnd : noDigitHead (' ' :: (b.title ++ ' ' :: (b.author ++ ' ' ::
      (print_d b.is_rented ++ [newline])))) := by
    intro c s e
    simp only [List.cons.injEq] at e
    rw [← e.1]; decide
  rw [cstr_of_nulFree (fprintf_book_nulFree h)]
  exact ⟨_, scan_d_print_d b.id _ hi hnd⟩

theorem get_next_id_loop_mem (lines : List (List Char)) (st : Int × Int) (l : List Char)
    (hl : l ∈ lines) (v : Int) (r : List Char) (hv : scan_d (cstr l) = some (v, r)) :
    v ≤ (lines.foldl get_next_id_step st).2 := by
  induction lines generalizing st with
  | nil => simp at hl
  | cons l0 ls ih =>
    simp only [List.foldl_cons]
    simp only [List.mem_cons] at hl
    rcases hl with rfl | hl
    · refine le_trans ?_ (get_next_id_loop_ge ls _)
      simp only [get_next_id_step, sscanf_d, hv]
      split_ifs with hc
      · exact le_refl _
      · simpa using hc
    · exact ih _ hl

theorem get_next_id_valid (junk : Int) (bs : List Book) (hv : ∀ b ∈ bs, validBook b = true)
    (hmax : ∀ b ∈ bs, b.id ≤ 2147483646) :
    (∀ b ∈ bs, b.id < get_next_id junk (some (encodeAll bs))) ∧
      0 < get_next_id junk (some (encodeAll bs)) := by
  have hle : ((fgetsLines (encodeAll bs)).foldl get_next_id_step (junk, 0)).2 ≤ 2147483646 := by
    apply get_next_id_loop_le 2147483646 _ _ _ (by simp)
    rw [fgetsLines_encodeAll bs hv]
    intro l hl
    obtain ⟨b, hb, rfl⟩ := List.mem_map.1 hl
    obtain ⟨r, hr⟩ := scan_d_fprintf_book (hv b hb)
    exact ⟨b.id, r, hr, hmax b hb⟩
  have hge := get_next_id_loop_ge (fgetsLines (encodeAll bs)) (junk, 0)
  simp only at hge
  have hmem : ∀ b ∈ bs,
      b.id ≤ ((fgetsLines (encodeAll bs)).foldl get_next_id_step (junk, 0)).2 := by
    intro b hb
    obtain ⟨r, hr⟩ := scan_d_fprintf_book (hv b hb)
    apply get_next_id_loop_mem _ _ (fprintf_book b) _ b.id r hr
    rw [fgetsLines_encodeAll bs hv]
    exact List.mem_map_of_mem _ hb
  unfold get_next_id
  simp only
  unfold toInt32
  constructor
  · intro b hb
    have := hmem b hb
    omega
  · omega

theorem wfCatalog_map (f : Book → Book) (bs : List Book) (hwf : wfCatalog bs)
    (hv : ∀ b, validBook b = true → validBook (f b) = true) (hid : ∀ b, (f b).id = b.id) :
    wfCatalog (bs.map f) := by
  obtain ⟨h1, h2⟩ := hwf
  constructor
  · intro b hb
    obtain ⟨b0, hb0, rfl⟩ := List.mem_map.1 hb
    exact ⟨hv b0 (h1 b0 hb0).1, by rw [hid]; exact (h1 b0 hb0).2⟩
  · rw [List.map_map]
    have : (fun b => b.id) ∘ f = fun b => b.id := by
      funext b; exact hid b
    rw [this]; exact h2

theorem wfCatalog_filter (p : Book → Bool) (bs : List Book) (hwf : wfCatalog bs) :
    wfCatalog (bs.filter p) := by
  obtain ⟨h1, h2⟩ := hwf
  constructor
  · intro b hb
    exact h1 b (List.mem_of_mem_filter hb)
  · exact List.Nodup.sublist (List.Sublist.map _ (List.filter_sublist bs)) h2

theorem rentRecord_id (book_id : Int) (b : Book) : (rentRecord book_id b).id = b.id := by
  unfold rentRecord; split_ifs <;> rfl

theorem returnRecord_id (book_id : Int) (b : Book) : (returnRecord book_id b).id = b.id := by
  unfold returnRecord; split_ifs <;> rfl

theorem modifyRecord_id (book_id : Int) (nt na : List Char) (b : Book) :
    (modifyRecord book_id nt na b).id = b.id := by
  unfold modifyRecord; split_ifs with h
  · exact h.symm
  · rfl

theorem encodeAll_append (bs cs : List Book) : encodeAll (bs ++ cs) = encodeAll bs ++ encodeAll cs := by
  simp [encodeAll]

theorem encodeAll_singleton (b : Book) : encodeAll [b] = fprintf_book b := by
  simp [encodeAll]

/-- C12 (as amended).  On a catalog of well-formed lines with pairwise distinct
positive ids, the catalog left by `delete_book`, by `modify_book` (new title
and author non-empty, free of white space, at most 49 bytes), by `rent_book` and
by `return_book` is again made of well-formed lines with pairwise distinct
positive ids.  When in addition every id is at most 2147483646, `add_book`
appends a well-formed line whose id is strictly greater than every id present,
so the same holds for it. -/
theorem unique_ids_preserved (g new_book : Book) (junk book_id : Int)
    (payload title author : List Char) (fs : FS) (bs : List Book)
    (hb : fs.books = some (encodeAll bs)) (hwf : wfCatalog bs)
    (ht : validTok title = true) (ha : validTok author = true) :
    (∃ bs', (delete_book g junk payload fs).1.books = some (encodeAll bs') ∧ wfCatalog bs') ∧
    (∃ bs' r, modify_book g new_book book_id (modify_payload title author) fs = some r ∧
      r.1.books = some (encodeAll bs') ∧ wfCatalog bs') ∧
    (∃ bs', (rent_book g book_id fs).1.books = some (encodeAll bs') ∧ wfCatalog bs') ∧
    (∃ bs', (return_book g junk payload fs).1.books = some (encodeAll bs') ∧ wfCatalog bs') ∧
    ((∀ b ∈ bs, b.id ≤ 2147483646) →
      (add_book junk title author fs).1.books
          = some (encodeAll (bs ++ [⟨get_next_id junk fs.books, title, author, 0⟩])) ∧
        (∀ b ∈ bs, b.id < get_next_id junk fs.books) ∧
        wfCatalog (bs ++ [⟨get_next_id junk fs.books, title, author, 0⟩])) := by
  have hv : ∀ b ∈ bs, validBook b = true := fun b hb' => (hwf.1 b hb').1
  have hfull := lines_full_of_valid bs hv
  have hscan := scan_records_encodeAll g bs hv
  refine ⟨?_, ?_, ?_, ?_, ?_⟩
  · obtain ⟨h1, h2⟩ := delete_loop_valid g (sscanf_d payload junk) bs hv
    by_cases hf : bs.any (fun b => decide (b.id = sscanf_d payload junk)) = true
    · rw [hf] at h1
      refine ⟨bs.filter (fun b => decide (b.id ≠ sscanf_d payload junk)), ?_,
        wfCatalog_filter _ bs hwf⟩
      simp only [delete_book, hb, h1, h2, if_true]
    · have hf' : bs.any (fun b => decide (b.id = sscanf_d payload junk)) = false := by
        simpa using hf
      rw [hf'] at h1
      exact ⟨bs, by simp [delete_book, hb, h1], hwf⟩
  · have hp := sscanf_title_author_payload title author new_book ht ha
    rw [modify_book_eq hb hp]
    split_ifs
    · refine ⟨bs.map (modifyRecord book_id title author), _, rfl, ?_, ?_⟩
      · simp only [fgetsLines_encodeAll bs hv, modify_written_valid _ _ _ bs hv]
        rfl
      · exact wfCatalog_map _ bs hwf
          (fun b hb' => validBook_modifyRecord _ _ _ hb' ht ha) (modifyRecord_id _ _ _)
    · exact ⟨bs, _, rfl, hb, hwf⟩
  · by_cases hy : ∃ b ∈ scan_records g (fgetsLines (encodeAll bs)),
        b.id = book_id ∧ b.is_rented = 0
    · refine ⟨bs.map (rentRecord book_id), ?_, ?_⟩
      · rw [rent_book_full hb hfull hy, hscan]
      · exact wfCatalog_map _ bs hwf (fun b hb' => validBook_rentRecord _ hb')
          (rentRecord_id _)
    · exact ⟨bs, by rw [rent_book_none hb hy]; exact hb, hwf⟩
  · by_cases hy : ∃ b ∈ scan_records g (fgetsLines (encodeAll bs)),
        b.id = sscanf_d payload junk ∧ b.is_rented = 1
    · refine ⟨bs.map (returnRecord (sscanf_d payload junk)), ?_, ?_⟩
      · rw [return_book_full hb hfull hy, hscan]
      · exact wfCatalog_map _ bs hwf (fun b hb' => validBook_returnRecord _ hb')
          (returnRecord_id _)
    · exact ⟨bs, by rw [return_book_none hb hy]; exact hb, hwf⟩
  · intro hmax
    obtain ⟨hlt, hpos⟩ := get_next_id_valid junk bs hv hmax
    rw [hb]
    refine ⟨?_, hlt, ?_⟩
    · simp [add_book, hb, encodeAll_append, encodeAll_singleton]
    · constructor
      · intro b hb'
        simp only [List.mem_append, List.mem_singleton] at hb'
        rcases hb' with hb' | rfl
        · exact hwf.1 b hb'
        · refine ⟨?_, hpos⟩
          simp only [validBook, Bool.and_eq_true, decide_eq_true_eq]
          exact ⟨⟨⟨get_next_id_isInt32 _ _, ht⟩, ha⟩, by unfold isInt32; omega⟩
      · rw [List.map_append, List.nodup_append]
        refine ⟨hwf.2, by simp, ?_⟩
        intro x hx hx'
        simp only [List.map_cons, List.map_nil, List.mem_singleton] at hx'
        obtain ⟨b, hbm, rfl⟩ := List.mem_map.1 hx
        have := hlt b hbm
        omega

/-- Witness for C12: the catalog `1 A B 0`, `2 C D 1` with an `add`. -/
theorem unique_ids_preserved_witness :
    (booksOnly "1 A B 0\n2 C D 1\n").books
        = some (encodeAll [⟨1, "A".toList, "B".toList, 0⟩, ⟨2, "C".toList, "D".toList, 1⟩]) ∧
    wfCatalog [⟨1, "A".toList, "B".toList, 0⟩, ⟨2, "C".toList, "D".toList, 1⟩] ∧
    (add_book 0 "T".toList "U".toList (booksOnly "1 A B 0\n2 C D 1\n")).1.books
        = some "1 A B 0\n2 C D 1\n3 T U 0\n".toList ∧
    wfCatalog ([⟨1, "A".toList, "B".toList, 0⟩, ⟨2, "C".toList, "D".toList, 1⟩] ++
      [⟨get_next_id 0 (booksOnly "1 A B 0\n2 C D 1\n").books, "T".toList, "U".toList, 0⟩]) :=
  have h := unique_ids_preserved zeroBook zeroBook 0 1 "1".toList "T".toList "U".toList
    (booksOnly "1 A B 0\n2 C D 1\n")
    [⟨1, "A".toList, "B".toList, 0⟩, ⟨2, "C".toList, "D".toList, 1⟩]
    (by decide) (by decide) (by decide) (by decide)
  ⟨by decide, by decide, by decide, (h.2.2.2.2 (by decide)).2.2⟩

/-- Counterexample to C12 as stated.  The catalog `2147483647 T A 0` is
well-formed with a positive id.  `add` allocates `-2147483648` (the `int`
addition `id + 1` wraps), which is not greater than the id present, and a
second `add` allocates `-2147483648` again: the catalog then holds two records
with the same id. -/
theorem add_at_int_max_repeats_id :
    wfCatalog [⟨2147483647, "T".toList, "A".toList, 0⟩] ∧
    (booksOnly "2147483647 T A 0\n").books
        = some (encodeAll [⟨2147483647, "T".toList, "A".toList, 0⟩]) ∧
    (add_book 0 "U".toList "B".toList (booksOnly "2147483647 T A 0\n")).1.books
        = some "2147483647 T A 0\n-2147483648 U B 0\n".toList ∧
    ¬ (2147483647 < get_next_id 0 (booksOnly "2147483647 T A 0\n").books) ∧
    (add_book 0 "V".toList "C".toList
        (add_book 0 "U".toList "B".toList (booksOnly "2147483647 T A 0\n")).1).1.books
        = some "2147483647 T A 0\n-2147483648 U B 0\n-2147483648 V C 0\n".toList ∧
    (scan_records zeroBook
        (fgetsLines "2147483647 T A 0\n-2147483648 U B 0\n-2147483648 V C 0\n".toList)).map
          (fun b => b.id)
        = [2147483647, -2147483648, -2147483648] := by
  decide

/-! ### Lines that lack fields -/

/-- C14, evaluated at the failing input.  A patron session sends the role
selector 1 and the command selector 4.  The iteration writes `Exiting`, closes
the socket and frees `client_socket`, but `case 4` of the patron menu has no
`return`: control falls through to `default` (whose `write` of
`Invalid Choice` fails on the closed descriptor) and the loop goes on.  The next
iteration reads from the closed descriptor, so `role` and `choice` keep 1 and 4,
runs `case 4` again and frees `client_socket` a second time.  In the admin menu
the selector 5 does return. -/
theorem patron_exit_does_not_return :
    handle_iter zeroJunk (Session.start [Frame.int 1, Frame.int 4] 0 0 noFiles)
      = some (Outcome.next ⟨[], false, ["Exiting".toList], false, 1, 1, 4, noFiles⟩) ∧
    handle_iter zeroJunk ⟨[], false, ["Exiting".toList], false, 1, 1, 4, noFiles⟩
      = some Outcome.undefined ∧
    handle_client zeroJunk 2 (Session.start [Frame.int 1, Frame.int 4] 0 0 noFiles)
      = some Outcome.undefined ∧
    handle_iter zeroJunk (Session.start [Frame.int 2, Frame.int 5] 0 0 noFiles)
      = some (Outcome.returned ⟨[], false, ["Exiting".toList], false, 1, 2, 5, noFiles⟩) ∧
    handle_client zeroJunk 2 (Session.start [Frame.int 2, Frame.int 5] 0 0 noFiles)
      = some (Outcome.returned ⟨[], false, ["Exiting".toList], false, 1, 2, 5, noFiles⟩) := by
  decide

theorem strcmp_eq_zero (a b : List Char) : strcmp a b = 0 ↔ a = b := by
  induction a generalizing b with
  | nil => cases b <;> simp [strcmp]
  | cons x s ih =>
    cases b with
    | nil => simp [strcmp]
    | cons y t =>
      unfold strcmp
      by_cases h : x = y
      · simp [h, ih]
      · simp only [h, if_false, List.cons.injEq, false_and, iff_false]
        split_ifs <;> decide

/-- C21.  `check_admin_credentials_test(username, password)` returns 1 exactly
when the user name is `admin` and the password is `admin`, and it returns 0
for every other pair of strings. -/
theorem check_admin_credentials_test_spec (username password : List Char) :
    (check_admin_credentials_test username password = 1
      ↔ username = "admin".toList ∧ password = "admin".toList) ∧
    (check_admin_credentials_test username password = 0
      ↔ ¬ (username = "admin".toList ∧ password = "admin".toList)) := by
  simp only [check_admin_credentials_test, strcmp_eq_zero]
  by_cases h : username = "admin".toList ∧ password = "admin".toList
  · simp [h]
  · simp [h]

/-- Witness for C21: the pair of `test_kill_ror_auth_mutant` and three other
pairs. -/
theorem check_admin_credentials_test_witness :
    check_admin_credentials_test "admin".toList "admin".toList = 1 ∧
    check_admin_credentials_test "admin".toList "user".toList = 0 ∧
    check_admin_credentials_test "Admin".toList "admin".toList = 0 ∧
    check_admin_credentials_test "admin".toList "admin ".toList = 0 :=
  ⟨(check_admin_credentials_test_spec "admin".toList "admin".toList).1.2 ⟨rfl, rfl⟩,
    (check_admin_credentials_test_spec "admin".toList "user".toList).2.2 (by decide),
    by decide, by decide⟩

/-! ### The mutex on every path -/

theorem checked_operations_release (c : Calls) :
    register_member_locks c Mutex.free = Exit.returned ⟨false, 1⟩ ∧
    add_book_locks c Mutex.free = Exit.returned ⟨false, 1⟩ ∧
    add_book_wrapper_locks c Mutex.free = Exit.returned ⟨false, 1⟩ ∧
    search_book_locks c Mutex.free = Exit.returned ⟨false, 1⟩ ∧
    delete_book_wrapper_locks c Mutex.free = Exit.returned ⟨false, 1⟩ := by
  obtain ⟨o, l, s, t, n, f⟩ := c
  cases o <;> cases l <;> cases s <;> cases t <;> cases f <;> exact ⟨rfl, rfl, rfl, rfl, rfl⟩

theorem rewrite_locks_release (c : Calls) :
    rewrite_locks c Mutex.free =
      if c.open_ok = true ∧ c.flock_ok = true ∧ (c.fdopen_ok = false ∨ c.fopen_ok = false)
      then Exit.crashed ⟨true, 1⟩ else Exit.returned ⟨false, 1⟩ := by
  obtain ⟨o, l, s, t, n, f⟩ := c
  cases o <;> cases l <;> cases s <;> cases t <;> cases f <;> rfl

theorem rewrite_operations_locks (c : Calls) :
    delete_book_locks c Mutex.free = rewrite_locks c Mutex.free ∧
    modify_book_locks c Mutex.free = rewrite_locks c Mutex.free ∧
    rent_book_locks c Mutex.free = rewrite_locks c Mutex.free ∧
    return_book_locks c Mutex.free = rewrite_locks c Mutex.free ∧
    rent_book_wrapper_locks c Mutex.free = rewrite_locks c Mutex.free ∧
    return_book_wrapper_locks c Mutex.free = rewrite_locks c Mutex.free :=
  ⟨rfl, rfl, rfl, rfl, rfl, rfl⟩

theorem unchecked_operations_locks (c : Calls) :
    number_of_rented_books_locks c Mutex.free =
      (if c.open_ok = false ∨ c.fdopen_ok = false ∨ c.fopen_ok = false
       then Exit.crashed ⟨true, 1⟩ else Exit.returned ⟨false, 1⟩) ∧
    modify_book_wrapper_locks c Mutex.free =
      (if c.open_ok = false ∨ c.fdopen_ok = false ∨ (c.fopen_ok = false ∧ c.has_line = true)
       then Exit.crashed ⟨true, 1⟩ else Exit.returned ⟨false, 1⟩) := by
  obtain ⟨o, l, s, t, n, f⟩ := c
  cases o <;> cases l <;> cases s <;> cases t <;> cases n <;> cases f <;> exact ⟨rfl, rfl⟩

/-- C22.  When `open` fails, for instance because the file is absent,
`modify_book_wrapper` and `number_of_rented_books` do not reach
`pthread_mutex_unlock`: they have acquired the mutex once and pass a null
stream to `fgets` while holding it, and the store model of `modify_book_wrapper`
has no result either.  On the same input `delete_book_wrapper` and `rent_book`
return with the mutex free. -/
theorem unchecked_open_holds_mutex :
    modify_book_wrapper_locks ⟨false, false, false, true, false, false⟩ Mutex.free
      = Exit.crashed ⟨true, 1⟩ ∧
    number_of_rented_books_locks ⟨false, false, false, true, false, false⟩ Mutex.free
      = Exit.crashed ⟨true, 1⟩ ∧
    modify_book_wrapper zeroBook [] [] 0 1 "NewTitle".toList "NewAuthor".toList noFiles
      = none ∧
    delete_book_wrapper_locks ⟨false, false, false, true, false, false⟩ Mutex.free
      = Exit.returned ⟨false, 1⟩ ∧
    rent_book_locks ⟨false, false, false, true, false, false⟩ Mutex.free
      = Exit.returned ⟨false, 1⟩ := by
  refine ⟨rfl, rfl, ?_, rfl, rfl⟩
  decide

/-! ### The wrapper of modify against modify -/

theorem modify_book_wrapper_books (g : Book) (spill_title spill_author : List Char)
    (flushed : Nat) (book_id : Int) (new_title new_author content : List Char) (fs : FS)
    (hb : fs.books = some content) :
    ∃ fs', modify_book_wrapper g spill_title spill_author flushed book_id new_title
        new_author fs = some fs' ∧ fs'.books = some content := by
  simp [modify_book_wrapper, hb]

/-- C23.  On the catalog `1 TestTitle TestAuthor 1` the call
`modify_book_wrapper(1, "NewTitle", "NewAuthor")` leaves books.txt as it was,
whatever part of the temporary file reaches the disk, while `modify_book` with
the id 1 and the payload `NewTitle NewAuthor` rewrites the record with the new
title and author. -/
theorem modify_book_wrapper_differs :
    (∀ flushed : Nat,
      (modify_book_wrapper zeroBook [] [] flushed 1 "NewTitle".toList "NewAuthor".toList
        (booksOnly "1 TestTitle TestAuthor 1\n")).map (fun fs => fs.books)
        = some (some "1 TestTitle TestAuthor 1\n".toList)) ∧
    (modify_book zeroBook zeroBook 1
        (modify_payload "NewTitle".toList "NewAuthor".toList)
        (booksOnly "1 TestTitle TestAuthor 1\n")).map (fun r => r.1.books)
      = some (some "1 NewTitle NewAuthor 1\n".toList) := by
  refine ⟨fun flushed => ?_, by decide⟩
  obtain ⟨fs', h, hb⟩ := modify_book_wrapper_books zeroBook [] [] flushed 1
    "NewTitle".toList "NewAuthor".toList "1 TestTitle TestAuthor 1\n".toList
    (booksOnly "1 TestTitle TestAuthor 1\n") rfl
  rw [h]
  exact congrArg some hb

end Server
